import Mathlib

/-!
Shallow embedding of the DAT recipe-to-pipeline compiler and incremental
updater (src/dat/vistrails_interface.py), with theorems checking the
specification claims against it.

Conventions of the embedding:
* VisTrails module and connection identities are natural numbers; fresh ids
  come from a monotone counter modelling the vistrail idScope.
* Python dictionaries are modelled as association lists; where CPython 2
  leaves iteration order unspecified, the model fixes one order (noted at
  each such place), which is a legitimate refinement.
* Code that raises an exception is modelled with Except; each throw site is
  annotated with the Python exception it models.
-/

namespace DAT

/-- Model of a pipeline module (vistrails Module): a process-unique id, a
module type descriptor (by name), and the values of its functions, where
get_function reads the first parameter value of the named function. -/
structure Module where
  id : Nat
  descriptor : String
  functions : List (String × String)
deriving DecidableEq

/-- Model of a vistrails Connection: a directed edge between module ports. -/
structure Connection where
  id : Nat
  sourceId : Nat
  sourcePort : String
  destId : Nat
  destPort : String
deriving DecidableEq

/-- Model of a vistrails Pipeline: the module set and connection set of one
graph version. -/
structure Pipeline where
  modules : List Module
  connections : List Connection
deriving DecidableEq

/-- Model of get_function: the value of the first parameter of the named
function of the module, if any. -/
def getFunction (m : Module) (name : String) : Option String :=
  (m.functions.find? (fun f => f.1 == name)).map (fun f => f.2)

/-- Staged edit operations recorded by PipelineGenerator and delete_linked.
Reposition operations emitted by the external layout stage are outside the
model (the layout service is an external collaborator). -/
inductive Op where
  | addModule (m : Module)
  | addConnection (c : Connection)
  | deleteConnection (c : Connection)
  | deleteModule (m : Module)
  | updateFunction (moduleId : Nat) (port : String) (values : List String)
deriving DecidableEq

/-- Value of sys.maxint on a 64-bit CPython 2, the default depth argument of
delete_linked. -/
def sysMaxint : Nat := 2 ^ 63 - 1

/-- Connections in which the module with the given id takes part; models the
module_connections map that delete_linked precomputes from the current
pipeline. -/
def moduleConnections (p : Pipeline) (modId : Nat) : List Connection :=
  p.connections.filter (fun c => c.sourceId == modId || c.destId == modId)

/-- Insertion into a list acting as a set (models adding to a python set;
first occurrence is kept, iteration order of the python set is unspecified
and the model fixes insertion order). -/
def insertConn (c : Connection) (l : List Connection) : List Connection :=
  if c ∈ l then l else l ++ [c]

/-- Insertion of a module into a list acting as a set. -/
def insertMod (m : Module) (l : List Module) : List Module :=
  if m ∈ l then l else l ++ [m]

/-- State threaded through one round of the breadth-first loop of
delete_linked: the removal set, the visited connection set, and the next
frontier (new_open_list). -/
structure BfsState where
  toDelete : List Module
  visited : List Connection
  newOpen : List Module
deriving DecidableEq

/-- Model of the innermost body of delete_linked: consider one connection of
the current frontier module. Mirrors the source exactly: a connection that is
unvisited and passes the filter leads to the module at its other endpoint,
which is added to the removal set and the next frontier if it passes the
module filter; the continue branch for an endpoint already marked for removal
skips the visited marking, every other path marks the connection visited.
The none branch of the endpoint lookup models a KeyError, impossible on a
well-formed pipeline. -/
def processConn (p : Pipeline) (mf : Module → Bool) (cf : Connection → Bool)
    (modId : Nat) (st : BfsState) (c : Connection) : BfsState :=
  if c ∉ st.visited ∧ cf c = true then
    let otherId := if c.sourceId = modId then c.destId else c.sourceId
    match p.modules.find? (fun m => m.id == otherId) with
    | none => { st with visited := insertConn c st.visited }
    | some other =>
      if other ∈ st.toDelete then st
      else if mf other then
        { toDelete := st.toDelete ++ [other]
          visited := insertConn c st.visited
          newOpen := st.newOpen ++ [other] }
      else { st with visited := insertConn c st.visited }
  else { st with visited := insertConn c st.visited }

/-- Process every connection in which one frontier module takes part. -/
def processModule (p : Pipeline) (mf : Module → Bool) (cf : Connection → Bool)
    (st : BfsState) (m : Module) : BfsState :=
  (moduleConnections p m.id).foldl (processConn p mf cf m.id) st

/-- One round of the while loop of delete_linked over the whole frontier. -/
def bfsRound (p : Pipeline) (mf : Module → Bool) (cf : Connection → Bool)
    (toDelete : List Module) (visited : List Connection)
    (openList : List Module) : BfsState :=
  openList.foldl (processModule p mf cf) ⟨toDelete, visited, []⟩

/-- Model of the while loop of delete_linked: while depth > 0 and the
frontier is nonempty, expand one round and decrement depth. -/
def bfsLoop (p : Pipeline) (mf : Module → Bool) (cf : Connection → Bool) :
    Nat → List Module → List Module → List Connection → List Module
  | 0, _, toDelete, _ => toDelete
  | Nat.succ d, openList, toDelete, visited =>
    if openList = [] then toDelete
    else
      let st := bfsRound p mf cf toDelete visited openList
      bfsLoop p mf cf d st.newOpen st.toDelete st.visited

/-- The set of modules delete_linked marks for removal: the loop is seeded
with the given modules as frontier and with their deduplicated set as initial
removal set (to_delete = set(open_list)). -/
def deleteLinkedModules (p : Pipeline) (seeds : List Module)
    (mf : Module → Bool) (cf : Connection → Bool) (depth : Nat) :
    List Module :=
  bfsLoop p mf cf depth seeds (seeds.foldl (fun l m => insertMod m l) []) []

/-- Result of delete_linked: the id set returned and the delete operations it
appends to the operations list. -/
structure DeleteLinkedResult where
  removedIds : List Nat
  ops : List Op
deriving DecidableEq

/-- Model of delete_linked (vistrails_interface.py lines 778 to 842): after
the breadth-first expansion, every connection in which any removed module
takes part is scheduled for deletion (regardless of the connection filter),
then the modules themselves, and the exact removed id set is returned. -/
def delete_linked (p : Pipeline) (seeds : List Module) (mf : Module → Bool)
    (cf : Connection → Bool) (depth : Nat) : DeleteLinkedResult :=
  let toDel := deleteLinkedModules p seeds mf cf depth
  let connToDelete := p.connections.filter
      (fun c => toDel.any (fun m => m.id == c.sourceId || m.id == c.destId))
  ⟨toDel.map Module.id,
   connToDelete.map Op.deleteConnection ++ toDel.map Op.deleteModule⟩

/-- Modelled from the spec: RecipeParameterValue (defined in the dat package
init module, which is not among the provided sources). A binding is tagged
Variable, referencing a compiled variable by name, or Constant, holding a
literal value; per the spec, bindings compare by value equality: same
variable reference, or same constant value. -/
inductive RecipeParameterValue where
  | var (name : String)
  | const (value : String)
deriving DecidableEq

/-- Model of a Port declaration of a Plot: the port name and the resolved
type descriptor of the port, by name. -/
structure PlotPort where
  name : String
  type : String
deriving DecidableEq

/-- Model of a Plot descriptor: its name, declared ports, and the pipeline
loaded from its subworkflow file (the template store is external, so the
model holds the loaded template directly). The source compares plots by
object identity; structural equality is the corresponding refinement. -/
structure Plot where
  name : String
  ports : List PlotPort
  subworkflow : Pipeline
deriving DecidableEq

/-- Model of a recipe: the plot template and a mapping from port name to the
ordered list of bindings, kept as an association list. -/
structure Recipe where
  plot : Plot
  parameters : List (String × List RecipeParameterValue)
deriving DecidableEq

/-- One entry of a connection map group list. Normally a group is the list
of connection ids created or carried for one binding; but when
add_variable_subworkflow receives an empty plot_ports list it returns an
output (module id, port name) pair instead, and the callers store that pair
verbatim, so the model keeps both shapes. The source converts a carried
group with list(), which turns a pair into a two-element list; that shape
change is not observable through ids and the model keeps the pair tag. -/
inductive PGroup where
  | ids (l : List Nat)
  | pair (moduleId : Nat) (port : String)
deriving DecidableEq

/-- Model of PipelineInformation (defined in the dat package init module,
not among the provided sources; its shape is fixed by the construction sites
in create_pipeline and update_pipeline): the committed graph version, the
originating recipe, the connection map and the port map. Port map keys are
Option String because the name function of an InputPort module can be absent
(a python None key). -/
structure PipelineInformation where
  version : Nat
  recipe : Recipe
  conn_map : List (String × List PGroup)
  port_map : List (Option String × List (Nat × String))
deriving DecidableEq

/-- Model of the pieces of the VistrailController read by the compiler and
updater: the current pipeline of the version being worked on, the stored
variable pipelines (versions tagged dat-var-name) with the declared type of
each variable, the idScope counter for fresh ids, and the version id the
next commit creates (perform_action and the layout stage are external; a
commit is observable as this fresh version id). -/
structure Controller where
  pipeline : Pipeline
  varStore : List (String × Pipeline × String)
  nextId : Nat
  nextVersion : Nat
deriving DecidableEq

/-- Errors raised by the modelled code paths. updateError models the
UpdateError class; valueError, keyError, typeError and assertionError model
the corresponding python exceptions escaping the function. -/
inductive Err where
  | updateError (msg : String)
  | valueError (msg : String)
  | keyError
  | typeError
  | assertionError
deriving DecidableEq

deriving instance DecidableEq for Except

/-- Lookup in an association list modelling a python dict. -/
def alookup {α β : Type} [DecidableEq α] (l : List (α × β)) (k : α) :
    Option β :=
  (l.find? (fun e => decide (e.1 = k))).map (fun e => e.2)

/-- Fresh-id generator state: the staged operations and the idScope counter.
The all_modules and all_connections fields of the source generator only feed
the external layout stage and are omitted. -/
structure GenState where
  ops : List Op
  nextId : Nat
deriving DecidableEq

/-- Model of PipelineGenerator.copy_module: a copy of the module under a
fresh identity. -/
def copyModule (g : GenState) (m : Module) : GenState × Module :=
  let m2 : Module := ⟨g.nextId, m.descriptor, m.functions⟩
  (⟨g.ops ++ [Op.addModule m2], g.nextId + 1⟩, m2)

/-- Model of PipelineGenerator.connect_modules: create a connection with a
fresh id and return that id. -/
def connectModules (g : GenState) (srcMod : Nat) (srcPort : String)
    (destMod : Nat) (destPort : String) : GenState × Nat :=
  let c : Connection := ⟨g.nextId, srcMod, srcPort, destMod, destPort⟩
  (⟨g.ops ++ [Op.addConnection c], g.nextId + 1⟩, g.nextId)

/-- Model of PipelineGenerator.update_function. -/
def genUpdateFunction (g : GenState) (moduleId : Nat) (port : String)
    (values : List String) : GenState :=
  ⟨g.ops ++ [Op.updateFunction moduleId port values], g.nextId⟩

/-- Result of add_variable_subworkflow: the new connection ids when
plot_ports is nonempty, or the output (module id, port name) pair when
plot_ports is empty or None (the source tests the argument for truthiness,
so an empty list takes the second branch even though it was supplied). -/
inductive VarSpliceOut where
  | connIds (l : List Nat)
  | outputPort (moduleId : Nat) (port : String)
deriving DecidableEq

/-- A module is the output boundary marker of a variable pipeline when it is
an OutputPort module whose name function has the value value. -/
def isOutputMarker (m : Module) : Bool :=
  m.descriptor == "OutputPort" && getFunction m "name" == some "value"

/-- Copy phase of add_variable_subworkflow: every module that is not an
output marker is copied under a fresh identity and recorded in the id map;
each marker is excluded from the copy and overwrites the recorded output id,
so with several markers the last one in iteration order wins (the source
iterates a dict with unspecified order; the model fixes list order). -/
def varCopyStep (acc : GenState × List (Nat × Nat) × Option Nat)
    (m : Module) : GenState × List (Nat × Nat) × Option Nat :=
  if isOutputMarker m then (acc.1, acc.2.1, some m.id)
  else
    let (g2, m2) := copyModule acc.1 m
    (g2, acc.2.1 ++ [(m.id, m2.id)], acc.2.2)

/-- The whole copy phase as the fold of varCopyStep over the modules. -/
def varCopyModules (g : GenState) (mods : List Module) :
    GenState × List (Nat × Nat) × Option Nat :=
  mods.foldl varCopyStep (g, [], none)

/-- Interior connection phase of add_variable_subworkflow: every connection
whose destination is not the output marker is copied with both endpoints
remapped; a missing endpoint in the map models the KeyError the source would
raise there. -/
def varConnStep (mp : List (Nat × Nat)) (outId : Nat) (g2 : GenState)
    (c : Connection) : Except Err GenState :=
  if c.destId = outId then pure g2
  else
    match alookup mp c.sourceId, alookup mp c.destId with
    | some s, some d =>
      pure (connectModules g2 s c.sourcePort d c.destPort).1
    | _, _ => throw Err.keyError

/-- The whole interior-connection phase as the fold of varConnStep. -/
def varCopyConnections (g : GenState) (mp : List (Nat × Nat)) (outId : Nat)
    (conns : List Connection) : Except Err GenState :=
  conns.foldlM (varConnStep mp outId) g

/-- Wiring phase of add_variable_subworkflow for nonempty plot_ports: for
every template connection feeding the output marker, connect its source to
each plot port, collecting the new connection ids. -/
def varWirePlotPorts (g : GenState) (mp : List (Nat × Nat)) (outId : Nat)
    (conns : List Connection) (plotPorts : List (Nat × String)) :
    Except Err (GenState × List Nat) :=
  conns.foldlM
    (fun acc c =>
      if c.destId = outId then
        plotPorts.foldlM
          (fun acc2 pp =>
            match alookup mp c.sourceId with
            | some s =>
              let (g2, cid) := connectModules acc2.1 s c.sourcePort pp.1 pp.2
              pure (g2, acc2.2 ++ [cid])
            | none => throw Err.keyError)
          acc
      else pure acc)
    (g, [])

/-- Branch of add_variable_subworkflow for empty plot_ports: return the
remapped source of the first connection feeding the output marker; the
assert False of the source when none exists is modelled as an assertion
error. -/
def varFindOutput (mp : List (Nat × Nat)) (outId : Nat) :
    List Connection → Except Err VarSpliceOut
  | [] => throw Err.assertionError
  | c :: rest =>
    if c.destId = outId then
      match alookup mp c.sourceId with
      | some s => pure (VarSpliceOut.outputPort s c.sourcePort)
      | none => throw Err.keyError
    else varFindOutput mp outId rest

/-- Model of add_variable_subworkflow (lines 1038 to 1104): splice a
variable pipeline, excluding its output marker modules, wire the module
feeding the marker to the given plot ports and return the new connection
ids, or return the output pair when plot_ports is empty. Raises ValueError
when the pipeline has no output marker. -/
def add_variable_subworkflow (g : GenState) (varPipeline : Pipeline)
    (plotPorts : List (Nat × String)) :
    Except Err (GenState × VarSpliceOut) := do
  let (g1, mp, outId?) := varCopyModules g varPipeline.modules
  match outId? with
  | none => throw (Err.valueError
      "add_variable_subworkflow: variable pipeline has no OutputPort module")
  | some outId => do
    let g2 ← varCopyConnections g1 mp outId varPipeline.connections
    if plotPorts = [] then do
      let out ← varFindOutput mp outId varPipeline.connections
      pure (g2, out)
    else do
      let r ← varWirePlotPorts g2 mp outId varPipeline.connections plotPorts
      pure (r.1, VarSpliceOut.connIds r.2)

/-- Model of add_constant_module (lines 1138 to 1151): create one module of
the constant descriptor of the port, set its value function, and connect its
value port to every plot port, returning the new connection ids. -/
def add_constant_module (g : GenState) (descriptor : String) (value : String)
    (plotPorts : List (Nat × String)) : GenState × List Nat :=
  let m : Module := ⟨g.nextId, descriptor, []⟩
  let g1 : GenState := ⟨g.ops ++ [Op.addModule m], g.nextId + 1⟩
  let g2 := genUpdateFunction g1 m.id "value" [value]
  plotPorts.foldl
    (fun acc pp =>
      ((connectModules acc.1 m.id "value" pp.1 pp.2).1,
       acc.2 ++ [(connectModules acc.1 m.id "value" pp.1 pp.2).2]))
    (g2, [])

/-- Abstraction of the caller-supplied typecast argument of create_pipeline
and update_pipeline (a function parameter in the source as well): given the
idScope counter, the variable name and the expected type, it yields the
operations it stages (loading and transforming the variable pipeline), the
advanced counter, and the output module id and port of the cast result. -/
structure Typecaster where
  run : Nat → String → String → List Op × Nat × Nat × String

/-- Model of add_variable_subworkflow_typecast (lines 1107 to 1135): when
the declared type of the variable is a subclass of the expected port type,
splice the stored variable pipeline directly; otherwise apply the
caller-supplied typecast and wire its output. isSub models the external
module registry subclass relation; a missing variable in the store models
the exception getPipeline raises for an unknown tag; a needed but absent
typecast models the TypeError of calling None. -/
def add_variable_subworkflow_typecast (isSub : String → String → Bool)
    (ctrl : Controller) (g : GenState) (varName : String)
    (plotPorts : List (Nat × String)) (expectedType : String)
    (typecast : Option Typecaster) : Except Err (GenState × VarSpliceOut) :=
  match alookup ctrl.varStore varName with
  | none => throw Err.keyError
  | some (vp, vtype) =>
    if isSub vtype expectedType then
      add_variable_subworkflow g vp plotPorts
    else
      match typecast with
      | none => throw Err.typeError
      | some tc =>
        let (tops, nid, outMod, outPort) := tc.run g.nextId varName expectedType
        let g1 : GenState := ⟨g.ops ++ tops, nid⟩
        if plotPorts = [] then
          pure (g1, VarSpliceOut.outputPort outMod outPort)
        else
          let r := plotPorts.foldl
            (fun acc pp =>
              let (g2, cid) := connectModules acc.1 outMod outPort pp.1 pp.2
              (g2, acc.2 ++ [cid]))
            (g1, [])
          pure (r.1, VarSpliceOut.connIds r.2)

/-- Model of the name_to_port dict comprehension; with duplicate port names
the later entry wins, as in a python dict comprehension. -/
def nameToPort (ports : List PlotPort) (n : String) : Option PlotPort :=
  ports.reverse.find? (fun q => decide (q.name = n))

/-- Model of dict.setdefault(key, []).append(value): append the value to
the queue of the key, keys in first-insertion order (the iteration order of
the python dict is unspecified; the model fixes this order). -/
def dictAppend {α β : Type} [DecidableEq α] (d : List (α × List β)) (k : α)
    (v : β) : List (α × List β) :=
  match d with
  | [] => [(k, [v])]
  | (q, vs) :: rest =>
    if q = k then (q, vs ++ [v]) :: rest
    else (q, vs) :: dictAppend rest k v

/-- Build old_params from the old bindings of one port paired with their
stored connection groups. -/
def buildOldParams (pairs : List (RecipeParameterValue × PGroup)) :
    List (RecipeParameterValue × List PGroup) :=
  pairs.foldl (fun d e => dictAppend d e.1 e.2) []

/-- Model of the match step of the new-parameter loop: old =
old_params.get(param); if old is truthy, pop its first group and delete the
key once the queue empties. An empty queue is falsy and counts as no match
(the source never leaves one behind). -/
def opPop (d : List (RecipeParameterValue × List PGroup))
    (p : RecipeParameterValue) :
    Option (PGroup × List (RecipeParameterValue × List PGroup)) :=
  match d with
  | [] => none
  | (q, gs) :: rest =>
    if q = p then
      match gs with
      | [] => none
      | g :: gs2 => some (g, if gs2 = [] then rest else (q, gs2) :: rest)
    else
      (opPop rest p).map (fun r => (r.1, (q, gs) :: r.2))

/-- Pair each old binding of a port with its stored connection group by
position, as the source indexes pipelineInfo.conn_map[port_name][i]; a
missing port entry or a too-short group list models the KeyError or
IndexError of the source. -/
def zipGroups :
    List RecipeParameterValue → List PGroup →
    Except Err (List (RecipeParameterValue × PGroup))
  | [], _ => pure []
  | _ :: _, [] => throw Err.keyError
  | p :: ps, g :: gs => (zipGroups ps gs).map (fun r => (p, g) :: r)

/-- The old bindings of a port paired with their stored groups; when the old
recipe has no bindings for the port, the connection map is never indexed. -/
def oldBindingPairs (info : PipelineInformation) (port : String)
    (olds : List RecipeParameterValue) :
    Except Err (List (RecipeParameterValue × PGroup)) :=
  if olds = [] then pure []
  else
    match alookup info.conn_map port with
    | none => throw Err.keyError
    | some groups => zipGroups olds groups

/-- Convert the return of the variable splice into the stored group shape. -/
def outToPGroup : VarSpliceOut → PGroup
  | VarSpliceOut.connIds l => PGroup.ids l
  | VarSpliceOut.outputPort m pn => PGroup.pair m pn

/-- Model of the plot_ports computation of the add branch of update_pipeline:
look the port up in the stored port map and resolve every module id in the
current pipeline (a missing key or module models the KeyError of the
source). -/
def resolvePlotPorts (pipeline : Pipeline) (info : PipelineInformation)
    (port : String) : Except Err (List (Nat × String)) :=
  match alookup info.port_map (some port) with
  | none => throw Err.keyError
  | some entries =>
    entries.foldlM
      (fun acc e =>
        if pipeline.modules.any (fun m => m.id == e.1) then pure (acc ++ [e])
        else throw Err.keyError)
      []

/-- State threaded through the new-parameter loop of one port of
update_pipeline. -/
structure PortLoopState where
  gen : GenState
  dict : List (RecipeParameterValue × List PGroup)
  connLists : List PGroup
  added : List String

/-- Model of one step of the new-parameter loop of update_pipeline (lines
1337 to 1369): a binding matching a not-yet-consumed old binding of equal
value carries the stored group of the first such old binding forward
verbatim; otherwise the binding is wired fresh exactly as in
create_pipeline, and the port is logged as added. -/
def updNewParamStep (isSub : String → String → Bool) (ctrl : Controller)
    (info : PipelineInformation) (newPlot : Plot)
    (typecast : Option Typecaster) (port : String)
    (st : PortLoopState) (param : RecipeParameterValue) :
    Except Err PortLoopState :=
  match opPop st.dict param with
  | some (g, dict2) =>
    pure ⟨st.gen, dict2, st.connLists ++ [g], st.added⟩
  | none => do
    let plotPorts ← resolvePlotPorts ctrl.pipeline info port
    match param with
    | RecipeParameterValue.var vname =>
      match nameToPort newPlot.ports port with
      | none => throw Err.keyError
      | some pp => do
        let r ← add_variable_subworkflow_typecast isSub ctrl st.gen vname
            plotPorts pp.type typecast
        pure ⟨r.1, st.dict, st.connLists ++ [outToPGroup r.2],
              st.added ++ [port]⟩
    | RecipeParameterValue.const value =>
      match nameToPort newPlot.ports port with
      | none => throw Err.keyError
      | some pp =>
        let r := add_constant_module st.gen pp.type value plotPorts
        pure ⟨r.1, st.dict, st.connLists ++ [PGroup.ids r.2],
              st.added ++ [port]⟩

/-- Model of the removal of one leftover stored connection group (lines 1374
to 1386): resolve the connection ids in the current pipeline, seed
delete_linked with the source modules of those connections, use unbounded
depth (the sys.maxint default) and a connection filter that excludes the
connections of this very group, and stage the resulting delete operations. A
group of the pair shape models the exception the source raises when indexing
the connection dict with a module object. -/
def deleteLeftoverGroup (pipeline : Pipeline) (g : GenState) (gp : PGroup) :
    Except Err GenState :=
  match gp with
  | PGroup.pair _ _ => throw Err.keyError
  | PGroup.ids cids => do
    let conns ← cids.foldlM
      (fun acc cid =>
        match pipeline.connections.find? (fun c => c.id == cid) with
        | some c => pure (insertConn c acc)
        | none => throw Err.keyError)
      []
    let seeds ← conns.foldlM
      (fun acc c =>
        match pipeline.modules.find? (fun m => m.id == c.sourceId) with
        | some m => pure (insertMod m acc)
        | none => throw Err.keyError)
      []
    let r := delete_linked pipeline seeds (fun _ => true)
        (fun c => decide (c ∉ conns)) sysMaxint
    pure ⟨g.ops ++ r.ops, g.nextId⟩

/-- Loop of update_pipeline over the groups left in old_params after the
new-parameter loop: stage the deletion of every leftover group, logging the
port once per removed group. -/
def leftoverFold (pipeline : Pipeline) (port : String)
    (d : List (RecipeParameterValue × List PGroup)) (g : GenState)
    (removed : List String) : Except Err (GenState × List String) :=
  d.foldlM
    (fun acc entry =>
      entry.2.foldlM
        (fun acc2 gp => do
          let g2 ← deleteLeftoverGroup pipeline acc2.1 gp
          pure (g2, acc2.2 ++ [port]))
        acc)
    (g, removed)

/-- Process one port of the union loop of update_pipeline: build old_params
from the old bindings and their stored groups, run the new-parameter loop,
then delete every leftover group. Returns the generator, the finished group
list of the port, and the added and removed logs. -/
def updProcessPort (isSub : String → String → Bool) (ctrl : Controller)
    (info : PipelineInformation) (newRecipe : Recipe)
    (typecast : Option Typecaster) (g : GenState)
    (added removed : List String) (port : String) :
    Except Err (GenState × List PGroup × List String × List String) := do
  let olds := (alookup info.recipe.parameters port).getD []
  let pairs ← oldBindingPairs info port olds
  let dict := buildOldParams pairs
  let news := (alookup newRecipe.parameters port).getD []
  let st ← news.foldlM
      (updNewParamStep isSub ctrl info newRecipe.plot typecast port)
      ⟨g, dict, [], added⟩
  let fin ← leftoverFold ctrl.pipeline port st.dict st.gen removed
  pure (fin.1, st.connLists, st.added, fin.2)

/-- Union of the port names of the two recipes; the source iterates an
unordered set union, the model fixes old-first insertion order. -/
def unionKeys (old new : Recipe) : List String :=
  (old.parameters.map Prod.fst ++ new.parameters.map Prod.fst).foldl
    (fun acc k => if k ∈ acc then acc else acc ++ [k]) []

/-- One iteration of the union loop of update_pipeline: process the port and
append its finished group list to the connection map under construction. -/
def updPortStep (isSub : String → String → Bool) (ctrl : Controller)
    (info : PipelineInformation) (newRecipe : Recipe)
    (typecast : Option Typecaster)
    (acc : GenState × List (String × List PGroup) × List String ×
      List String) (port : String) :
    Except Err
      (GenState × List (String × List PGroup) × List String ×
       List String) := do
  let r ← updProcessPort isSub ctrl info newRecipe typecast acc.1
      acc.2.2.1 acc.2.2.2 port
  pure (r.1, acc.2.1 ++ [(port, r.2.1)], r.2.2.1, r.2.2.2)

/-- Loop of update_pipeline over the union of port names, building the new
connection map one port at a time. -/
def updateCore (isSub : String → String → Bool) (ctrl : Controller)
    (info : PipelineInformation) (newRecipe : Recipe)
    (typecast : Option Typecaster) :
    Except Err
      (GenState × List (String × List PGroup) × List String × List String) :=
  (unionKeys info.recipe newRecipe).foldlM
    (updPortStep isSub ctrl info newRecipe typecast)
    (⟨[], ctrl.nextId⟩, [], [], [])

/-- Observable outcome of update_pipeline: the returned record or the raised
error, the operations committed to the vistrail, and the number of commits
performed. A staged log discarded by an exception is not observable and is
reported empty. -/
structure UpdateOutcome where
  result : Except Err PipelineInformation
  ops : List Op
  commits : Nat
deriving DecidableEq

/-- Model of update_pipeline (lines 1298 to 1403). Raises UpdateError, with
nothing staged or committed, when the plot of the new recipe differs from
the plot of the prior recipe; returns the prior record with no commit when
no port changed; otherwise commits once and returns the new record carrying
the fresh version, the rebuilt connection map and the inherited port map. -/
def update_pipeline (isSub : String → String → Bool) (ctrl : Controller)
    (info : PipelineInformation) (newRecipe : Recipe)
    (typecast : Option Typecaster) : UpdateOutcome :=
  if info.recipe.plot ≠ newRecipe.plot then
    ⟨throw (Err.updateError "update_pipeline cannot change plot type!"),
     [], 0⟩
  else
    match updateCore isSub ctrl info newRecipe typecast with
    | Except.error e => ⟨throw e, [], 0⟩
    | Except.ok (g, connMap, added, removed) =>
      if added = [] ∧ removed = [] then ⟨pure info, [], 0⟩
      else
        ⟨pure ⟨ctrl.nextVersion, newRecipe, connMap, info.port_map⟩,
         g.ops, 1⟩

/-- Model of the cell_info argument of create_pipeline: the spreadsheet cell
coordinates. -/
structure CellInfo where
  row : Nat
  column : Nat
deriving DecidableEq

/-- Copy phase of create_pipeline: every module of the plot template that is
not an InputPort module is copied under a fresh identity. -/
def plotCopyModules (g : GenState) (mods : List Module) :
    GenState × List (Nat × Nat) :=
  mods.foldl
    (fun acc m =>
      if m.descriptor == "InputPort" then acc
      else
        let (g2, m2) := copyModule acc.1 m
        (g2, acc.2 ++ [(m.id, m2.id)]))
    (g, [])

/-- Model of the cell handling of create_pipeline (lines 1199 to 1227, with
_get_or_create_module): when the template contains a spreadsheet cell
module, reuse its first CellLocation module or, when there is none, create
one and connect it to the first cell module, then set the Row and Column
functions of the location module; a template without a cell module only
produces a warning. find_modules_by_type tests the descriptor with
issubclass, modelled by isSub. -/
def cellPhase (isSub : String → String → Bool) (g : GenState)
    (plotPipeline : Pipeline) (mp : List (Nat × Nat)) (ci : CellInfo) :
    Except Err GenState :=
  let cellModules := plotPipeline.modules.filter
      (fun m => isSub m.descriptor "SpreadsheetCell")
  match cellModules with
  | [] => pure g
  | cm :: _ =>
    match plotPipeline.modules.filter
        (fun m => isSub m.descriptor "CellLocation") with
    | [] =>
      let locM : Module := ⟨g.nextId, "CellLocation", []⟩
      let g1 : GenState := ⟨g.ops ++ [Op.addModule locM], g.nextId + 1⟩
      match alookup mp cm.id with
      | none => throw Err.keyError
      | some cmNew =>
        let g2 := (connectModules g1 locM.id "self" cmNew "Location").1
        let g3 := genUpdateFunction g2 locM.id "Row" [toString (ci.row + 1)]
        pure (genUpdateFunction g3 locM.id "Column"
            [toString (ci.column + 1)])
    | lm :: _ =>
      match alookup mp lm.id with
      | none => throw Err.keyError
      | some lmNew =>
        let g3 := genUpdateFunction g lmNew "Row" [toString (ci.row + 1)]
        pure (genUpdateFunction g3 lmNew "Column"
            [toString (ci.column + 1)])

/-- Model of the connection loop of create_pipeline (lines 1229 to 1244):
a connection leaving an InputPort module records the remapped destination
under the name function value of that marker in plot_params and is not
copied; every other connection is copied with both endpoints remapped. A
connection endpoint missing from the pipeline or from the map models the
KeyError of the source (in particular for an edge joining two boundary
markers). -/
def plotConnectionsPhase (g : GenState) (plotPipeline : Pipeline)
    (mp : List (Nat × Nat)) :
    Except Err (GenState × List (Option String × List (Nat × String))) :=
  plotPipeline.connections.foldlM
    (fun acc c =>
      match plotPipeline.modules.find? (fun m => m.id == c.sourceId) with
      | none => throw Err.keyError
      | some src =>
        if src.descriptor == "InputPort" then
          match alookup mp c.destId with
          | none => throw Err.keyError
          | some d =>
            pure (acc.1,
                  dictAppend acc.2 (getFunction src "name") (d, c.destPort))
        else
          match alookup mp c.sourceId, alookup mp c.destId with
          | some s, some d =>
            pure ((connectModules acc.1 s c.sourcePort d c.destPort).1,
                  acc.2)
          | _, _ => throw Err.keyError)
    (g, [])

/-- Connection map phase of create_pipeline (lines 1246 to 1270): for every
port of the recipe, in order, wire every binding to the plot ports recorded
for that port name and append the returned group. -/
def createConnMap (isSub : String → String → Bool) (ctrl : Controller)
    (recipe : Recipe)
    (plotParams : List (Option String × List (Nat × String)))
    (typecast : Option Typecaster) (g : GenState) :
    Except Err (GenState × List (String × List PGroup)) :=
  recipe.parameters.foldlM
    (fun acc e => do
      let plotPorts := (alookup plotParams (some e.1)).getD []
      let r ← e.2.foldlM
        (fun acc2 param =>
          match param with
          | RecipeParameterValue.var vname =>
            match nameToPort recipe.plot.ports e.1 with
            | none => throw Err.keyError
            | some pq => do
              let s ← add_variable_subworkflow_typecast isSub ctrl acc2.1
                  vname plotPorts pq.type typecast
              pure (s.1, acc2.2 ++ [outToPGroup s.2])
          | RecipeParameterValue.const value =>
            match nameToPort recipe.plot.ports e.1 with
            | none => throw Err.keyError
            | some pq =>
              let s := add_constant_module acc2.1 pq.type value plotPorts
              pure (s.1, acc2.2 ++ [PGroup.ids s.2]))
        (acc.1, ([] : List PGroup))
      pure (r.1, acc.2 ++ [(e.1, r.2)]))
    (g, [])

/-- Composition of the phases of create_pipeline, threading the generator
and returning the connection map and plot_params. -/
def createCore (isSub : String → String → Bool) (ctrl : Controller)
    (recipe : Recipe) (cellInfo : CellInfo) (typecast : Option Typecaster) :
    Except Err
      (GenState × List (String × List PGroup) ×
       List (Option String × List (Nat × String))) := do
  let pp := recipe.plot.subworkflow
  let (g1, mp) := plotCopyModules ⟨[], ctrl.nextId⟩ pp.modules
  let g2 ← cellPhase isSub g1 pp mp cellInfo
  let r3 ← plotConnectionsPhase g2 pp mp
  let r4 ← createConnMap isSub ctrl recipe r3.2 typecast r3.1
  pure (r4.1, r4.2, r3.2)

/-- Observable outcome of create_pipeline, as for update_pipeline. -/
structure CreateOutcome where
  result : Except Err PipelineInformation
  ops : List Op
  commits : Nat
deriving DecidableEq

/-- Model of create_pipeline (lines 1154 to 1286): build the whole graph
from the root version by splicing the plot template and wiring every binding
of the recipe, then commit once; the returned record carries the fresh
version, the built connection map, and plot_params converted to module ids
as the port map. -/
def create_pipeline (isSub : String → String → Bool) (ctrl : Controller)
    (recipe : Recipe) (cellInfo : CellInfo) (typecast : Option Typecaster) :
    CreateOutcome :=
  match createCore isSub ctrl recipe cellInfo typecast with
  | Except.error e => ⟨throw e, [], 0⟩
  | Except.ok (g, connMap, plotParams) =>
    ⟨pure ⟨ctrl.nextVersion, recipe, connMap, plotParams⟩, g.ops, 1⟩

/-! ### Specification-side definitions used to state the claims. -/

/-- Specification-side first-match removal: remove the first pair carrying
the given binding value from a list of (binding, group) pairs, returning its
group and the remaining pairs in order. -/
def removeFirst :
    List (RecipeParameterValue × PGroup) → RecipeParameterValue →
    Option (PGroup × List (RecipeParameterValue × PGroup))
  | [], _ => none
  | (q, g) :: rest, p =>
    if q = p then some (g, rest)
    else (removeFirst rest p).map (fun r => (r.1, (q, g) :: r.2))

/-- Specification-side multiset reconciliation of one port, as the claims
describe it: process the new bindings in order; a binding matching a
remaining old binding of equal value consumes the first such old binding and
yields its stored group; an unmatched binding yields none. Also returns the
leftover old pairs in their original order. -/
def matchGroups :
    List (RecipeParameterValue × PGroup) → List RecipeParameterValue →
    List (Option PGroup) × List (RecipeParameterValue × PGroup)
  | old, [] => ([], old)
  | old, p :: ps =>
    match removeFirst old p with
    | some r =>
      let s := matchGroups r.2 ps
      (some r.1 :: s.1, s.2)
    | none =>
      let s := matchGroups old ps
      (none :: s.1, s.2)

/-- The old bindings of a port of a record paired positionally with their
stored connection groups. -/
def oldFlat (info : PipelineInformation) (q : String) :
    List (RecipeParameterValue × PGroup) :=
  ((alookup info.recipe.parameters q).getD []).zip
    ((alookup info.conn_map q).getD [])

/-- The dict of queues d represents the flat pair list when, for every key,
the queue found for that key lists exactly the groups of the pairs carrying
that key, in order. -/
def Represents (d : List (RecipeParameterValue × List PGroup))
    (flat : List (RecipeParameterValue × PGroup)) : Prop :=
  ∀ q, (alookup d q).getD [] =
    (flat.filter (fun e => decide (e.1 = q))).map Prod.snd

/-- One undirected adjacency step between module ids over a connection of
the pipeline passing the filter. -/
def ConnStep (p : Pipeline) (cf : Connection → Bool) (x y : Nat) : Prop :=
  ∃ c, c ∈ p.connections ∧ cf c = true ∧
    ((c.sourceId = x ∧ c.destId = y) ∨ (c.destId = x ∧ c.sourceId = y))

/-- Reachability between module ids over filter-passing connections. -/
def Reaches (p : Pipeline) (cf : Connection → Bool) (x y : Nat) : Prop :=
  Relation.ReflTransGen (ConnStep p cf) x y

/-- Well-formedness of a pipeline: module ids are distinct and every
connection endpoint is the id of a module of the pipeline. -/
def Pipeline.wf (p : Pipeline) : Prop :=
  (p.modules.map Module.id).Nodup ∧
  ∀ c ∈ p.connections,
    c.sourceId ∈ p.modules.map Module.id ∧
    c.destId ∈ p.modules.map Module.id

/-- Invariant tying the visited set of the breadth-first loop of
delete_linked to its removal set: every visited connection that passes the
filter has both of its endpoint modules already marked for removal. -/
def Visinv (p : Pipeline) (cf : Connection → Bool)
    (visited : List Connection) (toDelete : List Module) : Prop :=
  ∀ c ∈ visited, cf c = true → ∀ w ∈ p.modules,
    (w.id = c.sourceId ∨ w.id = c.destId) → w ∈ toDelete

/-- Expected shape of the wiring of one constant module: the connection ids
and operations that connecting the module with the given id to the listed
plot ports produces, starting from the given id counter. -/
def constWire (nid mId : Nat) : List (Nat × String) → List Op × List Nat
  | [] => ([], [])
  | pp :: rest =>
    let r := constWire (nid + 1) mId rest
    (Op.addConnection ⟨nid, mId, "value", pp.1, pp.2⟩ :: r.1, nid :: r.2)

/-- Expected shape of the copy phase of add_variable_subworkflow over the
non-marker modules of the variable pipeline: every module copied under a
successive fresh identity, together with the map from old to new ids. -/
def spliceCopy (nid : Nat) : List Module → List Op × List (Nat × Nat)
  | [] => ([], [])
  | m :: rest =>
    let r := spliceCopy (nid + 1) rest
    (Op.addModule ⟨nid, m.descriptor, m.functions⟩ :: r.1,
     (m.id, nid) :: r.2)

/-- Expected shape of the interior-connection phase of
add_variable_subworkflow: every connection not feeding the chosen output
marker copied under a successive fresh id with both endpoints remapped
through the copy map. -/
def spliceWire (mp : List (Nat × Nat)) : Nat → List Connection → List Op
  | _, [] => []
  | nid, c :: rest =>
    Op.addConnection ⟨nid, (alookup mp c.sourceId).getD 0, c.sourcePort,
      (alookup mp c.destId).getD 0, c.destPort⟩ ::
      spliceWire mp (nid + 1) rest

/-- A variable pipeline with two output markers: one interior module feeding
the second marker. -/
def exVarPipe2 : Pipeline :=
  ⟨[⟨50, "M", []⟩, ⟨51, "OutputPort", [("name", "value")]⟩,
    ⟨52, "OutputPort", [("name", "value")]⟩],
   [⟨60, 50, "out", 52, "value-port"⟩]⟩

/-- The new recipe parameter dict obtained from the old one by adding one
constant binding at the end of the binding list of port P (appending the
port when it was absent). -/
def addConstBinding (ps : List (String × List RecipeParameterValue))
    (P : String) (c : String) :
    List (String × List RecipeParameterValue) :=
  if ps.any (fun e => decide (e.1 = P)) then
    ps.map (fun e =>
      if e.1 = P then (e.1, e.2 ++ [RecipeParameterValue.const c]) else e)
  else ps ++ [(P, [RecipeParameterValue.const c])]

/-- Keys of an association list are distinct. -/
def NodupKeys {α β : Type} (d : List (α × β)) : Prop :=
  (d.map Prod.fst).Nodup

/-- The stored connection map covers the recipe of the record: every port
entry with bindings has a stored group list at least as long. This is the
part of the connection map invariant that update_pipeline relies on when
indexing pipelineInfo.conn_map. -/
def RecipeCovered (info : PipelineInformation) : Prop :=
  ∀ e ∈ info.recipe.parameters, e.2 ≠ [] →
    (alookup info.conn_map e.1).isSome = true ∧
    e.2.length ≤ ((alookup info.conn_map e.1).map List.length).getD 0

instance (info : PipelineInformation) : Decidable (RecipeCovered info) := by
  unfold RecipeCovered
  exact inferInstance

/-- An operation is a module addition. -/
def Op.isAddModule : Op → Bool
  | Op.addModule _ => true
  | _ => false

/-- An operation is a connection addition. -/
def Op.isAddConnection : Op → Bool
  | Op.addConnection _ => true
  | _ => false

/-- An operation deletes something. -/
def Op.isDelete : Op → Bool
  | Op.deleteConnection _ => true
  | Op.deleteModule _ => true
  | _ => false

/-! ### Concrete instances used by witnesses and counterexamples. -/

/-- A small plot with one data port and an empty subworkflow (enough for the
update paths, which never read the subworkflow again). -/
def exPlot : Plot := ⟨"Line", [⟨"data", "T"⟩], ⟨[], []⟩⟩

/-- A second plot, differing from exPlot. -/
def exPlotB : Plot := ⟨"Bars", [⟨"data", "T"⟩], ⟨[], []⟩⟩

/-- Modules of the example pipeline: two variable output modules feeding one
plot module. -/
def exV1 : Module := ⟨1, "M", []⟩

/-- Second variable output module of the example pipeline. -/
def exV2 : Module := ⟨2, "M", []⟩

/-- Plot-side module of the example pipeline. -/
def exP10 : Module := ⟨10, "Cell", []⟩

/-- Connection of the first variable to the plot module. -/
def exE1 : Connection := ⟨101, 1, "value", 10, "in"⟩

/-- Connection of the second variable to the plot module. -/
def exE2 : Connection := ⟨102, 2, "value", 10, "in"⟩

/-- The example pipeline. -/
def exPipe : Pipeline := ⟨[exV1, exV2, exP10], [exE1, exE2]⟩

/-- Old recipe of the example: two variable bindings on the data port. -/
def exOldRecipe : Recipe :=
  ⟨exPlot,
   [("data", [RecipeParameterValue.var "A", RecipeParameterValue.var "B"])]⟩

/-- New recipe of the example: only the second variable binding remains. -/
def exNewRecipe : Recipe :=
  ⟨exPlot, [("data", [RecipeParameterValue.var "B"])]⟩

/-- Record of the compiled example graph. -/
def exInfo : PipelineInformation :=
  ⟨5, exOldRecipe, [("data", [PGroup.ids [101], PGroup.ids [102]])],
   [(some "data", [(10, "in")])]⟩

/-- Controller positioned on the example pipeline. -/
def exCtrl : Controller := ⟨exPipe, [], 200, 6⟩

/-- Record returned by updating the example record to the new recipe. -/
def exInfoUpd : PipelineInformation :=
  ⟨6, exNewRecipe, [("data", [PGroup.ids [102]])],
   [(some "data", [(10, "in")])]⟩

/-- A compiled variable pipeline: one module feeding the output marker. -/
def exVarPipeA : Pipeline :=
  ⟨[⟨70, "M", []⟩, ⟨71, "OutputPort", [("name", "value")]⟩],
   [⟨80, 70, "out", 71, "value-in"⟩]⟩

/-- A degenerate plot template: it declares the data port and holds an
InputPort marker named data, but no connection leaves the marker, so the
port is declared yet unwired. -/
def exPlotC4 : Plot :=
  ⟨"Degenerate", [⟨"data", "T"⟩],
   ⟨[⟨90, "InputPort", [("name", "data")]⟩, ⟨91, "Renderer", []⟩], []⟩⟩

/-- Recipe binding the variable A to the declared but unwired data port. -/
def exRecipeC4 : Recipe :=
  ⟨exPlotC4, [("data", [RecipeParameterValue.var "A"])]⟩

/-- Controller whose variable store holds A, compiled to exVarPipeA of
declared type T. -/
def exCtrlC4 : Controller :=
  ⟨exPipe, [("A", exVarPipeA, "T")], 300, 7⟩

/-! ### Theorems. General lemmas first, then one theorem per claim, each
preceded by a doc comment naming the claim. -/

theorem mem_insertMod (m x : Module) (l : List Module) :
    m ∈ insertMod x l ↔ m = x ∨ m ∈ l := by
  unfold insertMod
  by_cases h : x ∈ l
  · simp only [if_pos h]
    constructor
    · exact Or.inr
    · rintro (rfl | hm)
      · exact h
      · exact hm
  · simp [if_neg h, List.mem_append, or_comm]

theorem mem_foldl_insertMod (l l0 : List Module) (m : Module) :
    m ∈ l.foldl (fun acc x => insertMod x acc) l0 ↔ m ∈ l0 ∨ m ∈ l := by
  induction l generalizing l0 with
  | nil => simp
  | cons x xs ih =>
    simp only [List.foldl_cons, ih, mem_insertMod, List.mem_cons]
    tauto

theorem bfsLoop_zero (p : Pipeline) (mf : Module → Bool)
    (cf : Connection → Bool) (o t : List Module) (v : List Connection) :
    bfsLoop p mf cf 0 o t v = t := rfl

/-- Claim C7: delete_linked with depth 0 performs no propagation; the id set
it returns, and hence the set of modules removed, is exactly the id set of
the seed modules. -/
theorem claim_C7_depth_zero (p : Pipeline) (seeds : List Module)
    (mf : Module → Bool) (cf : Connection → Bool) (i : Nat) :
    i ∈ (delete_linked p seeds mf cf 0).removedIds ↔
      i ∈ seeds.map Module.id := by
  unfold delete_linked deleteLinkedModules
  simp only [bfsLoop_zero, List.mem_map]
  constructor
  · rintro ⟨m, hm, rfl⟩
    rcases (mem_foldl_insertMod seeds [] m).1 hm with h | h
    · simp at h
    · exact ⟨m, h, rfl⟩
  · rintro ⟨m, hm, rfl⟩
    exact ⟨m, (mem_foldl_insertMod seeds [] m).2 (Or.inr hm), rfl⟩

/-- Witness for claim C7 at a concrete input. -/
theorem claim_C7_depth_zero_witness :
    (1 ∈ (delete_linked exPipe [exV1] (fun _ => true) (fun _ => true)
        0).removedIds ↔ 1 ∈ [exV1].map Module.id) ∧
    (delete_linked exPipe [exV1] (fun _ => true) (fun _ => true)
        0).removedIds = [1] :=
  ⟨claim_C7_depth_zero exPipe [exV1] (fun _ => true) (fun _ => true) 1,
   by decide⟩

/-- Claim C6: after any call to delete_linked, every connection incident to
any removed module is scheduled for deletion, whatever the connection filter
said during traversal, so no dangling edge can remain. -/
theorem claim_C6_no_dangling (p : Pipeline) (seeds : List Module)
    (mf : Module → Bool) (cf : Connection → Bool) (depth : Nat)
    (c : Connection) (hc : c ∈ p.connections)
    (h : c.sourceId ∈ (delete_linked p seeds mf cf depth).removedIds ∨
         c.destId ∈ (delete_linked p seeds mf cf depth).removedIds) :
    Op.deleteConnection c ∈ (delete_linked p seeds mf cf depth).ops := by
  unfold delete_linked at h ⊢
  simp only [List.mem_map] at h
  apply List.mem_append_left
  apply List.mem_map_of_mem
  apply List.mem_filter.2
  refine ⟨hc, ?_⟩
  simp only [List.any_eq_true, Bool.or_eq_true, beq_iff_eq]
  rcases h with ⟨m, hm, he⟩ | ⟨m, hm, he⟩
  · exact ⟨m, hm, Or.inl he⟩
  · exact ⟨m, hm, Or.inr he⟩

/-- Witness for claim C6 at a concrete input: the edge of the deleted
module is scheduled for deletion even though the filter rejected every
connection. -/
theorem claim_C6_no_dangling_witness :
    exE1 ∈ exPipe.connections ∧
    (1 ∈ (delete_linked exPipe [exV1] (fun _ => true) (fun _ => false)
        3).removedIds ∨
     10 ∈ (delete_linked exPipe [exV1] (fun _ => true) (fun _ => false)
        3).removedIds) ∧
    Op.deleteConnection exE1 ∈
      (delete_linked exPipe [exV1] (fun _ => true) (fun _ => false) 3).ops :=
  ⟨by decide, Or.inl (by decide),
   claim_C6_no_dangling exPipe [exV1] (fun _ => true) (fun _ => false) 3
     exE1 (by decide) (Or.inl (by decide))⟩

/-- Claim C8: update_pipeline fails with UpdateError whenever the plot of
the new recipe differs from the plot of the prior record, and this failure
happens before any edit is staged or committed: the outcome carries the
error, an empty committed operation list and zero commits, so the prior
graph version is untouched. -/
theorem claim_C8_template_mismatch (isSub : String → String → Bool)
    (ctrl : Controller) (info : PipelineInformation) (newRecipe : Recipe)
    (tc : Option Typecaster) (h : info.recipe.plot ≠ newRecipe.plot) :
    update_pipeline isSub ctrl info newRecipe tc =
      ⟨Except.error
        (Err.updateError "update_pipeline cannot change plot type!"),
       [], 0⟩ := by
  unfold update_pipeline
  rw [if_pos h]
  rfl

/-- Witness for claim C8 at a concrete input. -/
theorem claim_C8_template_mismatch_witness :
    exInfo.recipe.plot ≠ (Recipe.mk exPlotB []).plot ∧
    update_pipeline (fun _ _ => true) exCtrl exInfo ⟨exPlotB, []⟩ none =
      ⟨Except.error
        (Err.updateError "update_pipeline cannot change plot type!"),
       [], 0⟩ :=
  ⟨by decide,
   claim_C8_template_mismatch (fun _ _ => true) exCtrl exInfo ⟨exPlotB, []⟩
     none (by decide)⟩

theorem alookup_nil {α β : Type} [DecidableEq α] (q : α) :
    alookup ([] : List (α × β)) q = none := rfl

theorem alookup_cons {α β : Type} [DecidableEq α] (k : α) (v : β)
    (d : List (α × β)) (q : α) :
    alookup ((k, v) :: d) q = if k = q then some v else alookup d q := by
  unfold alookup
  by_cases h : k = q
  · rw [if_pos h, List.find?_cons_of_pos _ (by simp [h])]
    simp
  · rw [if_neg h, List.find?_cons_of_neg _ (by simp [h])]

theorem alookup_dictAppend_self {α β : Type} [DecidableEq α]
    (d : List (α × List β)) (k : α) (v : β) :
    alookup (dictAppend d k v) k = some ((alookup d k).getD [] ++ [v]) := by
  induction d with
  | nil => simp [dictAppend, alookup_cons, alookup_nil]
  | cons e rest ih =>
    obtain ⟨q, vs⟩ := e
    by_cases h : q = k
    · subst h
      simp [dictAppend, alookup_cons]
    · simp only [dictAppend, if_neg h, alookup_cons, ih, if_neg h]

theorem alookup_dictAppend_ne {α β : Type} [DecidableEq α]
    (d : List (α × List β)) (k : α) (v : β) (q : α) (hq : q ≠ k) :
    alookup (dictAppend d k v) q = alookup d q := by
  induction d with
  | nil =>
    simp only [dictAppend, alookup_cons, alookup_nil]
    rw [if_neg (Ne.symm hq)]
  | cons e rest ih =>
    obtain ⟨q2, vs⟩ := e
    by_cases h : q2 = k
    · subst h
      have hda : dictAppend ((q2, vs) :: rest) q2 v =
          (q2, vs ++ [v]) :: rest := by
        simp [dictAppend]
      rw [hda, alookup_cons, alookup_cons, if_neg (Ne.symm hq),
        if_neg (Ne.symm hq)]
    · simp only [dictAppend, if_neg h, alookup_cons, ih]

theorem dictAppend_keys {α β : Type} [DecidableEq α]
    (d : List (α × List β)) (k : α) (v : β) :
    (dictAppend d k v).map Prod.fst =
      if k ∈ d.map Prod.fst then d.map Prod.fst
      else d.map Prod.fst ++ [k] := by
  induction d with
  | nil => simp [dictAppend]
  | cons e rest ih =>
    obtain ⟨q, vs⟩ := e
    by_cases h : q = k
    · subst h
      simp [dictAppend]
    · simp only [dictAppend, if_neg h, List.map_cons, List.mem_cons, ih]
      by_cases hk : k ∈ rest.map Prod.fst
      · rw [if_pos hk, if_pos (Or.inr hk)]
      · rw [if_neg hk, if_neg ?_]
        · rfl
        · rintro (hh | hh)
          · exact h hh.symm
          · exact hk hh

theorem dictAppend_nodupKeys {α β : Type} [DecidableEq α]
    (d : List (α × List β)) (k : α) (v : β) (hd : NodupKeys d) :
    NodupKeys (dictAppend d k v) := by
  unfold NodupKeys at hd ⊢
  rw [dictAppend_keys]
  by_cases hk : k ∈ d.map Prod.fst
  · rw [if_pos hk]
    exact hd
  · rw [if_neg hk]
    rw [List.nodup_append]
    refine ⟨hd, List.nodup_singleton k, ?_⟩
    intro a ha hak
    rw [List.mem_singleton] at hak
    subst hak
    exact hk ha

theorem buildOldParams_nodupKeys
    (pairs : List (RecipeParameterValue × PGroup)) :
    NodupKeys (buildOldParams pairs) := by
  have h : ∀ d, NodupKeys d →
      NodupKeys (pairs.foldl (fun d e => dictAppend d e.1 e.2) d) := by
    induction pairs with
    | nil => exact fun d hd => hd
    | cons e rest ih =>
      intro d hd
      rw [List.foldl_cons]
      exact ih _ (dictAppend_nodupKeys d e.1 e.2 hd)
  exact h [] (by simp [NodupKeys])

theorem represents_nil : Represents [] [] := by
  intro q
  simp [alookup_nil]

theorem represents_dictAppend
    (d : List (RecipeParameterValue × List PGroup))
    (flat : List (RecipeParameterValue × PGroup))
    (h : Represents d flat) (k : RecipeParameterValue) (v : PGroup) :
    Represents (dictAppend d k v) (flat ++ [(k, v)]) := by
  intro q
  by_cases hq : q = k
  · subst hq
    rw [alookup_dictAppend_self]
    simp [List.filter_append, h q]
  · rw [alookup_dictAppend_ne d k v q hq]
    simp [List.filter_append, h q, Ne.symm hq]

theorem buildOldParams_represents
    (pairs : List (RecipeParameterValue × PGroup)) :
    Represents (buildOldParams pairs) pairs := by
  have h : ∀ d flat, Represents d flat →
      Represents (pairs.foldl (fun d e => dictAppend d e.1 e.2) d)
        (flat ++ pairs) := by
    induction pairs with
    | nil =>
      intro d flat hd
      simpa using hd
    | cons e rest ih =>
      intro d flat hd
      rw [List.foldl_cons]
      have he : flat ++ e :: rest = (flat ++ [(e.1, e.2)]) ++ rest := by
        simp
      rw [he]
      exact ih _ _ (represents_dictAppend d flat hd e.1 e.2)
  have h2 := h [] [] represents_nil
  unfold buildOldParams
  simpa using h2

theorem alookup_eq_none_of_not_mem {α β : Type} [DecidableEq α]
    (d : List (α × β)) (p : α) (h : p ∉ d.map Prod.fst) :
    alookup d p = none := by
  unfold alookup
  rw [List.find?_eq_none.2]
  · rfl
  · intro e he
    simp only [decide_eq_true_eq]
    intro hep
    apply h
    rw [← hep]
    exact List.mem_map_of_mem Prod.fst he

theorem alookup_mem {α β : Type} [DecidableEq α] (d : List (α × β)) (q : α)
    (v : β) (h : alookup d q = some v) : (q, v) ∈ d := by
  unfold alookup at h
  obtain ⟨e, he, rfl⟩ := Option.map_eq_some'.1 h
  have h2 := List.find?_some he
  simp only [decide_eq_true_eq] at h2
  have h3 := List.mem_of_find?_eq_some he
  rw [show e = (q, e.2) from by rw [← h2]] at h3
  exact h3

theorem removeFirst_none_filter (flat : List (RecipeParameterValue × PGroup))
    (p : RecipeParameterValue) (h : removeFirst flat p = none) :
    flat.filter (fun e => decide (e.1 = p)) = [] := by
  induction flat with
  | nil => rfl
  | cons e rest ih =>
    obtain ⟨q, g⟩ := e
    by_cases hq : q = p
    · simp [removeFirst, hq] at h
    · simp only [removeFirst, if_neg hq, Option.map_eq_none'] at h
      simp [hq, ih h]

theorem removeFirst_some_filter (flat : List (RecipeParameterValue × PGroup))
    (p : RecipeParameterValue) (g : PGroup)
    (flat2 : List (RecipeParameterValue × PGroup))
    (h : removeFirst flat p = some (g, flat2)) :
    (flat.filter (fun e => decide (e.1 = p))).map Prod.snd =
      g :: (flat2.filter (fun e => decide (e.1 = p))).map Prod.snd ∧
    ∀ q, q ≠ p → flat2.filter (fun e => decide (e.1 = q)) =
      flat.filter (fun e => decide (e.1 = q)) := by
  induction flat generalizing g flat2 with
  | nil => simp [removeFirst] at h
  | cons e rest ih =>
    obtain ⟨q0, g0⟩ := e
    by_cases hq : q0 = p
    · rw [show removeFirst ((q0, g0) :: rest) p = some (g0, rest) from by
        simp [removeFirst, hq], Option.some_inj] at h
      injection h with h1 h2
      subst h1
      subst h2
      subst hq
      constructor
      · simp
      · intro q hqp
        simp [Ne.symm hqp]
    · simp only [removeFirst, if_neg hq] at h
      obtain ⟨r, hr, hre⟩ := Option.map_eq_some'.1 h
      obtain ⟨g2, r2⟩ := r
      simp only [Prod.mk.injEq] at hre
      obtain ⟨rfl, rfl⟩ := hre
      obtain ⟨ih1, ih2⟩ := ih g2 r2 hr
      constructor
      · simpa [hq] using ih1
      · intro q hqp
        by_cases hqq : q0 = q
        · simp [hqq, ih2 q hqp]
        · simp [hqq, ih2 q hqp]

theorem opPop_eq_none (d : List (RecipeParameterValue × List PGroup))
    (p : RecipeParameterValue) (h : (alookup d p).getD [] = []) :
    opPop d p = none := by
  induction d with
  | nil => rfl
  | cons e rest ih =>
    obtain ⟨q, gs⟩ := e
    rw [alookup_cons] at h
    by_cases hq : q = p
    · rw [if_pos hq] at h
      simp only [Option.getD_some] at h
      subst h
      simp [opPop, hq]
    · rw [if_neg hq] at h
      simp [opPop, hq, ih h]

theorem opPop_eq_some (d : List (RecipeParameterValue × List PGroup))
    (p : RecipeParameterValue) (g : PGroup) (gs : List PGroup)
    (h : alookup d p = some (g :: gs)) (hnk : NodupKeys d) :
    ∃ d2, opPop d p = some (g, d2) ∧
      (alookup d2 p).getD [] = gs ∧
      (∀ q, q ≠ p → alookup d2 q = alookup d q) ∧
      NodupKeys d2 ∧ d2.map Prod.fst ⊆ d.map Prod.fst := by
  induction d generalizing g gs with
  | nil => simp [alookup_nil] at h
  | cons e rest ih =>
    obtain ⟨q0, gs0⟩ := e
    have hnkr : NodupKeys rest := by
      unfold NodupKeys at hnk ⊢
      exact (List.nodup_cons.1 hnk).2
    have hq0r : q0 ∉ rest.map Prod.fst := by
      unfold NodupKeys at hnk
      exact (List.nodup_cons.1 hnk).1
    rw [alookup_cons] at h
    by_cases hq : q0 = p
    · subst hq
      rw [if_pos rfl, Option.some_inj] at h
      subst h
      by_cases hgs : gs = []
      · subst hgs
        refine ⟨rest, by simp [opPop], ?_, ?_, hnkr, by simp⟩
        · rw [alookup_eq_none_of_not_mem rest q0 hq0r]
          rfl
        · intro q hqp
          rw [alookup_cons, if_neg (Ne.symm hqp)]
      · refine ⟨(q0, gs) :: rest, by simp [opPop, hgs], ?_, ?_, ?_, by simp⟩
        · rw [alookup_cons, if_pos rfl]
          rfl
        · intro q hqp
          rw [alookup_cons, alookup_cons, if_neg (Ne.symm hqp),
            if_neg (Ne.symm hqp)]
        · unfold NodupKeys at hnk ⊢
          simpa using hnk
    · rw [if_neg hq] at h
      obtain ⟨d2, hpop, hlk, hne, hnk2, hsub⟩ := ih g gs h hnkr
      refine ⟨(q0, gs0) :: d2, ?_, ?_, ?_, ?_, ?_⟩
      · simp [opPop, hq, hpop]
      · rw [alookup_cons, if_neg hq]
        exact hlk
      · intro q hqp
        rw [alookup_cons, alookup_cons]
        by_cases hqq : q0 = q
        · rw [if_pos hqq, if_pos hqq]
        · rw [if_neg hqq, if_neg hqq]
          exact hne q hqp
      · unfold NodupKeys at hnk2 ⊢
        rw [List.map_cons, List.nodup_cons]
        exact ⟨fun hc => hq0r (hsub hc), hnk2⟩
      · intro a ha
        rw [List.map_cons, List.mem_cons] at ha ⊢
        rcases ha with ha | ha
        · exact Or.inl ha
        · exact Or.inr (hsub ha)

theorem pop_none_of_removeFirst_none
    (d : List (RecipeParameterValue × List PGroup))
    (flat : List (RecipeParameterValue × PGroup)) (p : RecipeParameterValue)
    (hrep : Represents d flat) (h : removeFirst flat p = none) :
    opPop d p = none := by
  apply opPop_eq_none
  rw [hrep p, removeFirst_none_filter flat p h]
  rfl

theorem pop_some_of_removeFirst_some
    (d : List (RecipeParameterValue × List PGroup))
    (flat : List (RecipeParameterValue × PGroup)) (p : RecipeParameterValue)
    (g : PGroup) (flat2 : List (RecipeParameterValue × PGroup))
    (hrep : Represents d flat) (hnk : NodupKeys d)
    (h : removeFirst flat p = some (g, flat2)) :
    ∃ d2, opPop d p = some (g, d2) ∧ Represents d2 flat2 ∧ NodupKeys d2 := by
  obtain ⟨hfp, hfo⟩ := removeFirst_some_filter flat p g flat2 h
  have hlk : alookup d p =
      some (g :: (flat2.filter (fun e => decide (e.1 = p))).map Prod.snd) := by
    have h2 := hrep p
    rw [hfp] at h2
    cases hx : alookup d p with
    | none => rw [hx] at h2; simp at h2
    | some v => rw [hx] at h2; simp at h2; rw [h2]
  obtain ⟨d2, hpop, hlk2, hne, hnk2, _⟩ := opPop_eq_some d p g _ hlk hnk
  refine ⟨d2, hpop, ?_, hnk2⟩
  intro q
  by_cases hqp : q = p
  · subst hqp
    exact hlk2
  · rw [hne q hqp, hrep q, hfo q hqp]

theorem except_bind_ok {α β : Type} (x : Except Err α) (f : α → Except Err β)
    (b : β) :
    x >>= f = Except.ok b ↔ ∃ a, x = Except.ok a ∧ f a = Except.ok b := by
  cases x with
  | error e => simp [Bind.bind, Except.bind]
  | ok a => simp [Bind.bind, Except.bind]

theorem updStep_matched (isSub : String → String → Bool) (ctrl : Controller)
    (info : PipelineInformation) (plot : Plot) (tc : Option Typecaster)
    (port : String) (st : PortLoopState) (param : RecipeParameterValue)
    (g : PGroup) (d2 : List (RecipeParameterValue × List PGroup))
    (hpop : opPop st.dict param = some (g, d2)) :
    updNewParamStep isSub ctrl info plot tc port st param =
      Except.ok ⟨st.gen, d2, st.connLists ++ [g], st.added⟩ := by
  unfold updNewParamStep
  rw [hpop]
  rfl

theorem updStep_unmatched (isSub : String → String → Bool)
    (ctrl : Controller) (info : PipelineInformation) (plot : Plot)
    (tc : Option Typecaster) (port : String) (st : PortLoopState)
    (param : RecipeParameterValue) (st2 : PortLoopState)
    (hpop : opPop st.dict param = none)
    (h : updNewParamStep isSub ctrl info plot tc port st param =
      Except.ok st2) :
    st2.dict = st.dict ∧ st2.added = st.added ++ [port] ∧
    ∃ gp, st2.connLists = st.connLists ++ [gp] := by
  unfold updNewParamStep at h
  rw [hpop] at h
  obtain ⟨pps, hrp, hbody⟩ := (except_bind_ok _ _ _).1 h
  cases param with
  | var vname =>
    cases hnp : nameToPort plot.ports port with
    | none =>
      rw [hnp] at hbody
      exact absurd hbody (by simp [throw, throwThe, MonadExceptOf.throw])
    | some pp =>
      rw [hnp] at hbody
      obtain ⟨r, hr, hpure⟩ := (except_bind_ok _ _ _).1 hbody
      have hst2 : st2 = ⟨r.1, st.dict, st.connLists ++ [outToPGroup r.2],
          st.added ++ [port]⟩ := (Except.ok.inj hpure).symm
      subst hst2
      exact ⟨rfl, rfl, ⟨outToPGroup r.2, rfl⟩⟩
  | const value =>
    cases hnp : nameToPort plot.ports port with
    | none =>
      rw [hnp] at hbody
      exact absurd hbody (by simp [throw, throwThe, MonadExceptOf.throw])
    | some pp =>
      rw [hnp] at hbody
      have hst2 : st2 = ⟨(add_constant_module st.gen pp.type value pps).1,
          st.dict,
          st.connLists ++
            [PGroup.ids (add_constant_module st.gen pp.type value pps).2],
          st.added ++ [port]⟩ := (Except.ok.inj hbody).symm
      subst hst2
      exact ⟨rfl, rfl, ⟨_, rfl⟩⟩

theorem portLoop_spec (isSub : String → String → Bool) (ctrl : Controller)
    (info : PipelineInformation) (plot : Plot) (tc : Option Typecaster)
    (port : String) (news : List RecipeParameterValue) :
    ∀ (st : PortLoopState) (flat : List (RecipeParameterValue × PGroup)),
      Represents st.dict flat → NodupKeys st.dict →
      ∀ st2 : PortLoopState,
      news.foldlM (updNewParamStep isSub ctrl info plot tc port) st =
        Except.ok st2 →
      Represents st2.dict (matchGroups flat news).2 ∧
      NodupKeys st2.dict ∧
      ∃ t, st2.connLists = st.connLists ++ t ∧ t.length = news.length ∧
        ∀ j gp, (matchGroups flat news).1.get? j = some (some gp) →
          t.get? j = some gp := by
  induction news with
  | nil =>
    intro st flat hrep hnk st2 hok
    have hst : st2 = st := by
      simpa [List.foldlM, pure, Except.pure] using hok.symm
    subst hst
    refine ⟨by simpa [matchGroups] using hrep, hnk, [], by simp, by simp, ?_⟩
    intro j gp hj
    simp [matchGroups] at hj
  | cons pr ps ih =>
    intro st flat hrep hnk st2 hok
    rw [List.foldlM_cons] at hok
    obtain ⟨st1, hstep, hrest⟩ := (except_bind_ok _ _ _).1 hok
    cases hrf : removeFirst flat pr with
    | some r =>
      obtain ⟨g, flat2⟩ := r
      obtain ⟨d2, hpop, hrep2, hnk2⟩ :=
        pop_some_of_removeFirst_some st.dict flat pr g flat2 hrep hnk hrf
      rw [updStep_matched isSub ctrl info plot tc port st pr g d2 hpop]
        at hstep
      have hst1 : st1 = ⟨st.gen, d2, st.connLists ++ [g], st.added⟩ :=
        (Except.ok.inj hstep).symm
      subst hst1
      obtain ⟨hrepf, hnkf, t, hte, htl, htg⟩ :=
        ih _ flat2 hrep2 hnk2 st2 hrest
      refine ⟨by simpa [matchGroups, hrf] using hrepf, hnkf, g :: t, ?_, ?_, ?_⟩
      · simpa using hte
      · simpa using htl
      · intro j gp hj
        simp only [matchGroups, hrf] at hj
        cases j with
        | zero =>
          simp only [List.get?] at hj
          simp [Option.some_inj.1 hj]
        | succ j2 =>
          simp only [List.get?] at hj ⊢
          exact htg j2 gp hj
    | none =>
      have hpop := pop_none_of_removeFirst_none st.dict flat pr hrep hrf
      obtain ⟨hd, ha, gp0, hc⟩ := updStep_unmatched isSub ctrl info plot tc
        port st pr st1 hpop hstep
      obtain ⟨hrepf, hnkf, t, hte, htl, htg⟩ :=
        ih st1 flat (hd ▸ hrep) (hd ▸ hnk) st2 hrest
      refine ⟨by simpa [matchGroups, hrf] using hrepf, hnkf, gp0 :: t,
        ?_, ?_, ?_⟩
      · rw [hte, hc]
        simp
      · simpa using htl
      · intro j gp hj
        simp only [matchGroups, hrf] at hj
        cases j with
        | zero => simp only [List.get?] at hj; exact absurd hj (by simp)
        | succ j2 =>
          simp only [List.get?] at hj ⊢
          exact htg j2 gp hj

theorem except_map_ok {α β : Type} (x : Except Err α) (f : α → β) (b : β) :
    x.map f = Except.ok b ↔ ∃ a, x = Except.ok a ∧ f a = b := by
  cases x with
  | error e => simp [Except.map]
  | ok a => simp [Except.map]

theorem alookup_of_mem_nodup {α β : Type} [DecidableEq α]
    (d : List (α × β)) (hnk : NodupKeys d) (e : α × β) (he : e ∈ d) :
    alookup d e.1 = some e.2 := by
  induction d with
  | nil => simp at he
  | cons f rest ih =>
    obtain ⟨q0, v0⟩ := f
    rw [List.mem_cons] at he
    rcases he with rfl | he
    · rw [alookup_cons, if_pos rfl]
    · have hnkr : NodupKeys rest := (List.nodup_cons.1 hnk).2
      have hq0 : q0 ∉ rest.map Prod.fst := (List.nodup_cons.1 hnk).1
      rw [alookup_cons, if_neg ?_]
      · exact ih hnkr he
      · intro hq
        apply hq0
        rw [hq]
        exact List.mem_map_of_mem Prod.fst he

theorem represents_nil_queues
    (d : List (RecipeParameterValue × List PGroup))
    (hrep : Represents d []) (hnk : NodupKeys d) :
    ∀ e ∈ d, e.2 = [] := by
  intro e he
  have h1 := alookup_of_mem_nodup d hnk e he
  have h2 := hrep e.1
  rw [h1] at h2
  simpa using h2

theorem leftoverFold_empty (pipeline : Pipeline) (port : String)
    (d : List (RecipeParameterValue × List PGroup)) (g : GenState)
    (removed : List String) (h : ∀ e ∈ d, e.2 = []) :
    leftoverFold pipeline port d g removed = Except.ok (g, removed) := by
  induction d with
  | nil => rfl
  | cons e rest ih =>
    unfold leftoverFold at ih ⊢
    rw [List.foldlM_cons]
    rw [h e (List.mem_cons_self e rest)]
    simpa using ih (fun e2 he2 => h e2 (List.mem_cons_of_mem e he2))

theorem matchGroups_self (pairs : List (RecipeParameterValue × PGroup)) :
    matchGroups pairs (pairs.map Prod.fst) =
      (pairs.map (fun e => some e.2), []) := by
  induction pairs with
  | nil => rfl
  | cons e rest ih =>
    obtain ⟨q, g⟩ := e
    have h1 : removeFirst ((q, g) :: rest) q = some (g, rest) := by
      simp [removeFirst]
    simp [matchGroups, h1, ih]

theorem zipGroups_eq_ok (olds : List RecipeParameterValue)
    (groups : List PGroup) (pairs : List (RecipeParameterValue × PGroup))
    (h : zipGroups olds groups = Except.ok pairs) :
    pairs = olds.zip groups ∧ olds.length ≤ groups.length := by
  induction olds generalizing groups pairs with
  | nil =>
    cases groups <;>
      simp [show pairs = [] from by
        simpa [zipGroups, pure, Except.pure] using h.symm]
  | cons p ps ih =>
    cases groups with
    | nil =>
      exact absurd h (by simp [zipGroups, throw, throwThe, MonadExceptOf.throw])
    | cons g gs =>
      obtain ⟨r, hr, hre⟩ := (except_map_ok _ _ _).1 h
      obtain ⟨ih1, ih2⟩ := ih gs r hr
      constructor
      · rw [← hre, ih1]
        rfl
      · simpa using ih2

theorem zipGroups_of_le (olds : List RecipeParameterValue)
    (groups : List PGroup) (h : olds.length ≤ groups.length) :
    zipGroups olds groups = Except.ok (olds.zip groups) := by
  induction olds generalizing groups with
  | nil => cases groups <;> rfl
  | cons p ps ih =>
    cases groups with
    | nil => simp at h
    | cons g gs =>
      rw [List.length_cons, List.length_cons, Nat.succ_le_succ_iff] at h
      show (zipGroups ps gs).map _ = _
      rw [ih gs h]
      rfl

theorem updProcessPort_inv (isSub : String → String → Bool)
    (ctrl : Controller) (info : PipelineInformation) (newRecipe : Recipe)
    (tc : Option Typecaster) (g : GenState) (added removed : List String)
    (port : String)
    (res : GenState × List PGroup × List String × List String)
    (h : updProcessPort isSub ctrl info newRecipe tc g added removed port =
      Except.ok res) :
    ∃ pairs st fin,
      oldBindingPairs info port
        ((alookup info.recipe.parameters port).getD []) = Except.ok pairs ∧
      ((alookup newRecipe.parameters port).getD []).foldlM
        (updNewParamStep isSub ctrl info newRecipe.plot tc port)
        ⟨g, buildOldParams pairs, [], added⟩ = Except.ok st ∧
      leftoverFold ctrl.pipeline port st.dict st.gen removed =
        Except.ok fin ∧
      res = (fin.1, st.connLists, st.added, fin.2) := by
  unfold updProcessPort at h
  obtain ⟨pairs, h1, h2⟩ := (except_bind_ok _ _ _).1 h
  obtain ⟨st, h3, h4⟩ := (except_bind_ok _ _ _).1 h2
  obtain ⟨fin, h5, h6⟩ := (except_bind_ok _ _ _).1 h4
  exact ⟨pairs, st, fin, h1, h3, h5, (Except.ok.inj h6).symm⟩

theorem portLoop_self (isSub : String → String → Bool) (ctrl : Controller)
    (info : PipelineInformation) (plot : Plot) (tc : Option Typecaster)
    (port : String) (pairs : List (RecipeParameterValue × PGroup)) :
    ∀ st : PortLoopState, Represents st.dict pairs → NodupKeys st.dict →
    ∃ d2, (pairs.map Prod.fst).foldlM
        (updNewParamStep isSub ctrl info plot tc port) st =
      Except.ok ⟨st.gen, d2, st.connLists ++ pairs.map Prod.snd, st.added⟩ ∧
      Represents d2 [] ∧ NodupKeys d2 := by
  induction pairs with
  | nil =>
    intro st hrep hnk
    refine ⟨st.dict, ?_, by simpa using hrep, hnk⟩
    simp [List.foldlM, pure, Except.pure]
  | cons e rest ih =>
    intro st hrep hnk
    obtain ⟨q, gp⟩ := e
    have hrf : removeFirst ((q, gp) :: rest) q = some (gp, rest) := by
      simp [removeFirst]
    obtain ⟨d2, hpop, hrep2, hnk2⟩ :=
      pop_some_of_removeFirst_some st.dict _ q gp rest hrep hnk hrf
    obtain ⟨d3, hfold, hrep3, hnk3⟩ :=
      ih ⟨st.gen, d2, st.connLists ++ [gp], st.added⟩ hrep2 hnk2
    refine ⟨d3, ?_, hrep3, hnk3⟩
    rw [List.map_cons, List.foldlM_cons,
      updStep_matched isSub ctrl info plot tc port st q gp d2 hpop]
    show ((Except.ok _ : Except Err PortLoopState) >>= _) = _
    rw [show ∀ (a : PortLoopState) (f : PortLoopState →
        Except Err PortLoopState), Except.ok a >>= f = f a from
      fun a f => rfl]
    rw [hfold]
    simp

theorem updProcessPort_matchall (isSub : String → String → Bool)
    (ctrl : Controller) (info : PipelineInformation) (newRecipe : Recipe)
    (tc : Option Typecaster) (g : GenState) (added removed : List String)
    (port : String) (pairs : List (RecipeParameterValue × PGroup))
    (hpairs : oldBindingPairs info port
      ((alookup info.recipe.parameters port).getD []) = Except.ok pairs)
    (hsame : (alookup newRecipe.parameters port).getD [] =
      pairs.map Prod.fst) :
    updProcessPort isSub ctrl info newRecipe tc g added removed port =
      Except.ok (g, pairs.map Prod.snd, added, removed) := by
  obtain ⟨d2, hfold, hrep2, hnk2⟩ :=
    portLoop_self isSub ctrl info newRecipe.plot tc port pairs
      ⟨g, buildOldParams pairs, [], added⟩
      (buildOldParams_represents pairs) (buildOldParams_nodupKeys pairs)
  unfold updProcessPort
  dsimp only
  rw [hpairs]
  show ((Except.ok _ : Except Err _) >>= _) = _
  rw [show ∀ {α β : Type} (a : α) (f : α → Except Err β),
      Except.ok a >>= f = f a from fun a f => rfl]
  rw [hsame, hfold]
  rw [show ∀ {α β : Type} (a : α) (f : α → Except Err β),
      Except.ok a >>= f = f a from fun a f => rfl]
  rw [leftoverFold_empty ctrl.pipeline port d2 g removed
    (represents_nil_queues d2 hrep2 hnk2)]
  rw [show ∀ {α β : Type} (a : α) (f : α → Except Err β),
      Except.ok a >>= f = f a from fun a f => rfl]
  rfl

theorem updPortStep_matchall (isSub : String → String → Bool)
    (ctrl : Controller) (info : PipelineInformation) (newRecipe : Recipe)
    (tc : Option Typecaster) (g0 : GenState)
    (cm0 : List (String × List PGroup)) (a r : List String) (q : String)
    (hpairs : oldBindingPairs info q
      ((alookup info.recipe.parameters q).getD []) =
      Except.ok (oldFlat info q))
    (hsame : (alookup newRecipe.parameters q).getD [] =
      (oldFlat info q).map Prod.fst) :
    updPortStep isSub ctrl info newRecipe tc (g0, cm0, a, r) q =
      Except.ok (g0, cm0 ++ [(q, (oldFlat info q).map Prod.snd)], a, r) := by
  unfold updPortStep
  rw [updProcessPort_matchall isSub ctrl info newRecipe tc g0 a r q
    (oldFlat info q) hpairs hsame]
  rfl

theorem foldKeys_matchall (isSub : String → String → Bool)
    (ctrl : Controller) (info : PipelineInformation) (newRecipe : Recipe)
    (tc : Option Typecaster) :
    ∀ (keys : List String),
    (∀ q ∈ keys,
      oldBindingPairs info q
        ((alookup info.recipe.parameters q).getD []) =
        Except.ok (oldFlat info q) ∧
      (alookup newRecipe.parameters q).getD [] =
        (oldFlat info q).map Prod.fst) →
    ∀ (g0 : GenState)
      (cm0 : List (String × List PGroup)) (a r : List String),
    keys.foldlM (updPortStep isSub ctrl info newRecipe tc) (g0, cm0, a, r) =
      Except.ok (g0,
        cm0 ++ keys.map (fun q => (q, (oldFlat info q).map Prod.snd)),
        a, r) := by
  intro keys
  induction keys with
  | nil =>
    intro hM g0 cm0 a r
    simp [List.foldlM, pure, Except.pure]
  | cons k ks ih =>
    intro hM g0 cm0 a r
    rw [List.foldlM_cons,
      updPortStep_matchall isSub ctrl info newRecipe tc g0 cm0 a r k
        (hM k (List.mem_cons_self k ks)).1 (hM k (List.mem_cons_self k ks)).2]
    rw [show ∀ {α β : Type} (x : α) (f : α → Except Err β),
        Except.ok x >>= f = f x from fun x f => rfl]
    rw [ih (fun q hq => hM q (List.mem_cons_of_mem k hq))]
    simp

theorem recipeCovered_pairs (info : PipelineInformation)
    (hcov : RecipeCovered info) (q : String) :
    oldBindingPairs info q ((alookup info.recipe.parameters q).getD []) =
      Except.ok (oldFlat info q) ∧
    ((alookup info.recipe.parameters q).getD []) =
      (oldFlat info q).map Prod.fst := by
  cases hlo : alookup info.recipe.parameters q with
  | none =>
    constructor
    · unfold oldBindingPairs oldFlat
      rw [hlo]
      rfl
    · unfold oldFlat
      rw [hlo]
      rfl
  | some qs =>
    by_cases hqs : qs = []
    · subst hqs
      constructor
      · unfold oldBindingPairs oldFlat
        rw [hlo]
        rfl
      · unfold oldFlat
        rw [hlo]
        rfl
    · have hmem := alookup_mem info.recipe.parameters q qs hlo
      obtain ⟨hsome, hlen⟩ := hcov (q, qs) hmem hqs
      obtain ⟨gs, hgs0⟩ := Option.isSome_iff_exists.1 hsome
      have hgs : alookup info.conn_map q = some gs := hgs0
      rw [hgs] at hlen
      simp only [Option.map_some', Option.getD_some] at hlen
      have hflat : oldFlat info q = qs.zip gs := by
        unfold oldFlat
        rw [hlo, hgs]
        rfl
      constructor
      · unfold oldBindingPairs
        simp only [Option.getD_some]
        rw [if_neg hqs, hgs]
        dsimp only
        rw [zipGroups_of_le qs gs hlen, hflat]
      · simp only [Option.getD_some]
        rw [hflat, List.map_fst_zip qs gs hlen]

/-- Claim C3: updating a compiled record with a recipe equal to its
originating recipe is a no-op: the prior record itself is returned (same
record, same graph version id), no operation reaches the vistrail, and zero
commits are performed. The hypothesis is the stored part of the connection
map invariant: every port entry of the originating recipe has a stored group
list at least as long as its binding list. -/
theorem claim_C3_noop (isSub : String → String → Bool) (ctrl : Controller)
    (info : PipelineInformation) (tc : Option Typecaster)
    (hcov : RecipeCovered info) :
    update_pipeline isSub ctrl info info.recipe tc =
      ⟨Except.ok info, [], 0⟩ := by
  unfold update_pipeline
  rw [if_neg (by simp)]
  unfold updateCore
  rw [foldKeys_matchall isSub ctrl info info.recipe tc
    (unionKeys info.recipe info.recipe)
    (fun q _ => ⟨(recipeCovered_pairs info hcov q).1,
      (recipeCovered_pairs info hcov q).2⟩)]
  dsimp only
  rw [if_pos ⟨rfl, rfl⟩]
  rfl

/-- Witness for claim C3 at a concrete input. -/
theorem claim_C3_noop_witness :
    RecipeCovered exInfo ∧
    update_pipeline (fun _ _ => true) exCtrl exInfo exInfo.recipe none =
      ⟨Except.ok exInfo, [], 0⟩ :=
  ⟨by decide,
   claim_C3_noop (fun _ _ => true) exCtrl exInfo none (by decide)⟩

theorem oldBindingPairs_ok (info : PipelineInformation) (q : String)
    (pairs : List (RecipeParameterValue × PGroup))
    (h : oldBindingPairs info q
      ((alookup info.recipe.parameters q).getD []) = Except.ok pairs) :
    pairs = oldFlat info q ∧
    ((alookup info.recipe.parameters q).getD [] = [] ∨
      ∃ gs, alookup info.conn_map q = some gs ∧
        ((alookup info.recipe.parameters q).getD []).length ≤ gs.length) := by
  unfold oldBindingPairs at h
  by_cases ho : (alookup info.recipe.parameters q).getD [] = []
  · rw [if_pos ho] at h
    have hp : pairs = [] := by
      simpa [pure, Except.pure] using h.symm
    refine ⟨?_, Or.inl ho⟩
    unfold oldFlat
    rw [ho, hp]
    rfl
  · rw [if_neg ho] at h
    cases hgs : alookup info.conn_map q with
    | none =>
      rw [hgs] at h
      exact absurd h (by simp [throw, throwThe, MonadExceptOf.throw])
    | some gs =>
      rw [hgs] at h
      obtain ⟨hz, hl⟩ := zipGroups_eq_ok _ gs pairs h
      refine ⟨?_, Or.inr ⟨gs, rfl, hl⟩⟩
      unfold oldFlat
      rw [hgs, hz]
      rfl

theorem updPortStep_inv (isSub : String → String → Bool) (ctrl : Controller)
    (info : PipelineInformation) (newRecipe : Recipe) (tc : Option Typecaster)
    (acc out : GenState × List (String × List PGroup) × List String ×
      List String) (q : String)
    (h : updPortStep isSub ctrl info newRecipe tc acc q = Except.ok out) :
    ∃ res, updProcessPort isSub ctrl info newRecipe tc acc.1 acc.2.2.1
        acc.2.2.2 q = Except.ok res ∧
      out = (res.1, acc.2.1 ++ [(q, res.2.1)], res.2.2.1, res.2.2.2) := by
  unfold updPortStep at h
  obtain ⟨res, h1, h2⟩ := (except_bind_ok _ _ _).1 h
  exact ⟨res, h1, (Except.ok.inj h2).symm⟩

theorem mem_foldl_insertK {α : Type} [DecidableEq α] (l l0 : List α)
    (x : α) :
    x ∈ l.foldl (fun acc k => if k ∈ acc then acc else acc ++ [k]) l0 ↔
      x ∈ l0 ∨ x ∈ l := by
  induction l generalizing l0 with
  | nil => simp
  | cons k ks ih =>
    rw [List.foldl_cons, ih]
    by_cases hk : k ∈ l0
    · rw [if_pos hk]
      constructor
      · rintro (h | h)
        · exact Or.inl h
        · exact Or.inr (List.mem_cons_of_mem k h)
      · rintro (h | h)
        · exact Or.inl h
        · rcases List.mem_cons.1 h with rfl | h2
          · exact Or.inl hk
          · exact Or.inr h2
    · rw [if_neg hk]
      simp only [List.mem_append, List.mem_singleton, List.mem_cons]
      tauto

theorem nodup_foldl_insertK {α : Type} [DecidableEq α] (l l0 : List α)
    (h0 : l0.Nodup) :
    (l.foldl (fun acc k => if k ∈ acc then acc else acc ++ [k]) l0).Nodup := by
  induction l generalizing l0 with
  | nil => exact h0
  | cons k ks ih =>
    rw [List.foldl_cons]
    by_cases hk : k ∈ l0
    · rw [if_pos hk]
      exact ih l0 h0
    · rw [if_neg hk]
      apply ih
      rw [List.nodup_append]
      refine ⟨h0, List.nodup_singleton k, ?_⟩
      intro a ha hak
      rw [List.mem_singleton] at hak
      subst hak
      exact hk ha

theorem mem_unionKeys (old new : Recipe) (q : String) :
    q ∈ unionKeys old new ↔
      q ∈ old.parameters.map Prod.fst ∨ q ∈ new.parameters.map Prod.fst := by
  unfold unionKeys
  rw [mem_foldl_insertK]
  simp [List.mem_append]

theorem unionKeys_nodup (old new : Recipe) : (unionKeys old new).Nodup :=
  nodup_foldl_insertK _ [] List.nodup_nil

theorem foldKeys_entries (isSub : String → String → Bool)
    (ctrl : Controller) (info : PipelineInformation) (newRecipe : Recipe)
    (tc : Option Typecaster) :
    ∀ (keys : List String)
      (acc0 out : GenState × List (String × List PGroup) × List String ×
        List String),
      keys.Nodup →
      keys.foldlM (updPortStep isSub ctrl info newRecipe tc) acc0 =
        Except.ok out →
      ∃ ents, out.2.1 = acc0.2.1 ++ ents ∧ ents.map Prod.fst = keys ∧
        ∀ q ∈ keys, ∃ g a r res,
          updProcessPort isSub ctrl info newRecipe tc g a r q =
            Except.ok res ∧
          alookup ents q = some res.2.1 := by
  intro keys
  induction keys with
  | nil =>
    intro acc0 out hnd hok
    have : out = acc0 := by
      simpa [List.foldlM, pure, Except.pure] using hok.symm
    subst this
    exact ⟨[], by simp, rfl, by simp⟩
  | cons k ks ih =>
    intro acc0 out hnd hok
    rw [List.foldlM_cons] at hok
    obtain ⟨acc1, hstep, hrest⟩ := (except_bind_ok _ _ _).1 hok
    obtain ⟨res, hproc, hacc1⟩ :=
      updPortStep_inv isSub ctrl info newRecipe tc acc0 acc1 k hstep
    obtain ⟨ents2, hout, hkeys, hall⟩ :=
      ih acc1 out (List.nodup_cons.1 hnd).2 hrest
    refine ⟨(k, res.2.1) :: ents2, ?_, ?_, ?_⟩
    · rw [hout, hacc1]
      simp
    · rw [List.map_cons, hkeys]
    · intro q hq
      rcases List.mem_cons.1 hq with rfl | hq2
      · exact ⟨acc0.1, acc0.2.2.1, acc0.2.2.2, res, hproc,
          by rw [alookup_cons, if_pos rfl]⟩
      · obtain ⟨g, a, r, res2, hp2, hl2⟩ := hall q hq2
        refine ⟨g, a, r, res2, hp2, ?_⟩
        rw [alookup_cons, if_neg ?_, hl2]
        intro hkq
        subst hkq
        exact (List.nodup_cons.1 hnd).1 hq2

theorem zip_get_right {α β : Type} (l1 : List α) (l2 : List β) (j : Nat)
    (e : α × β) (h : (l1.zip l2).get? j = some e) :
    l2.get? j = some e.2 := by
  induction l1 generalizing l2 j with
  | nil => simp at h
  | cons a l1 ih =>
    cases l2 with
    | nil => simp at h
    | cons b l2 =>
      cases j with
      | zero =>
        rw [List.zip_cons_cons] at h
        simp only [List.get?] at h ⊢
        rw [← Option.some_inj.1 h]
      | succ j2 =>
        rw [List.zip_cons_cons] at h
        simp only [List.get?] at h ⊢
        exact ih l2 j2 h

/-- Claim C1: whenever update_pipeline succeeds, each port is reconciled by
value equality of bindings, not by position: a new binding that matches a
not-yet-consumed old binding of equal value consumes the first-in-order
unmatched old binding of that value (matchGroups and removeFirst render
exactly this discipline over the stored binding and group pairs), and the
consumed binding carries its stored edge-id group into the returned
connection map verbatim, at the position the binding occupies in the recipe
of the returned record. -/
theorem claim_C1_value_matching (isSub : String → String → Bool)
    (ctrl : Controller) (info : PipelineInformation) (newRecipe : Recipe)
    (tc : Option Typecaster) (info2 : PipelineInformation)
    (hres : (update_pipeline isSub ctrl info newRecipe tc).result =
      Except.ok info2) :
    ∀ (q : String) (j : Nat) (gp : PGroup),
      (matchGroups (oldFlat info q)
        ((alookup info2.recipe.parameters q).getD [])).1.get? j =
        some (some gp) →
      ∃ gs, alookup info2.conn_map q = some gs ∧ gs.get? j = some gp := by
  unfold update_pipeline at hres
  by_cases hp : info.recipe.plot ≠ newRecipe.plot
  · rw [if_pos hp] at hres
    exact absurd hres (by simp [throw, throwThe, MonadExceptOf.throw])
  · rw [if_neg hp] at hres
    cases hcore : updateCore isSub ctrl info newRecipe tc with
    | error e =>
      rw [hcore] at hres
      exact absurd hres (by simp [throw, throwThe, MonadExceptOf.throw])
    | ok tup =>
      rw [hcore] at hres
      obtain ⟨g, cm, added, removed⟩ := tup
      unfold updateCore at hcore
      obtain ⟨ents, hcm, hkeys, hall⟩ :=
        foldKeys_entries isSub ctrl info newRecipe tc
          (unionKeys info.recipe newRecipe) _ _
          (unionKeys_nodup info.recipe newRecipe) hcore
      dsimp only at hres hcm
      by_cases hno : added = [] ∧ removed = []
      · rw [if_pos hno] at hres
        have hinfo2 : info2 = info := (Except.ok.inj hres).symm
        rw [hinfo2]
        intro q j gp hj
        by_cases holds : (alookup info.recipe.parameters q).getD [] = []
        · rw [holds] at hj
          simp [matchGroups] at hj
        · have hqmem : q ∈ unionKeys info.recipe newRecipe := by
            rw [mem_unionKeys]
            left
            cases hlo : alookup info.recipe.parameters q with
            | none => rw [hlo] at holds; simp at holds
            | some qs =>
              exact List.mem_map_of_mem Prod.fst
                (alookup_mem info.recipe.parameters q qs hlo)
          obtain ⟨g1, a1, r1, res1, hproc, _⟩ := hall q hqmem
          obtain ⟨pairs, st, fin, hpairs, _, _, _⟩ :=
            updProcessPort_inv isSub ctrl info newRecipe tc g1 a1 r1 q
              res1 hproc
          obtain ⟨hpe, hca⟩ := oldBindingPairs_ok info q pairs hpairs
          rcases hca with hca | ⟨gs, hgs, hlen⟩
          · exact absurd hca holds
          · have hflat : oldFlat info q =
                ((alookup info.recipe.parameters q).getD []).zip gs := by
              unfold oldFlat
              rw [hgs]
              rfl
            have hmf : (oldFlat info q).map Prod.fst =
                (alookup info.recipe.parameters q).getD [] := by
              rw [hflat, List.map_fst_zip _ gs hlen]
            rw [← hmf, matchGroups_self (oldFlat info q),
              List.get?_map] at hj
            obtain ⟨e, he, hev⟩ := Option.map_eq_some'.1 hj
            have hgp : e.2 = gp := by simpa using hev
            refine ⟨gs, hgs, ?_⟩
            rw [hflat] at he
            rw [← hgp]
            exact zip_get_right _ gs j e he
      · rw [if_neg hno] at hres
        have hinfo2 : info2 =
            ⟨ctrl.nextVersion, newRecipe, cm, info.port_map⟩ :=
          (Except.ok.inj hres).symm
        rw [hinfo2]
        intro q j gp hj
        dsimp only at hj ⊢
        by_cases hqmem : q ∈ unionKeys info.recipe newRecipe
        · obtain ⟨g1, a1, r1, res1, hproc, hlk⟩ := hall q hqmem
          obtain ⟨pairs, st, fin, hpairs, hfold, hleft, hres1⟩ :=
            updProcessPort_inv isSub ctrl info newRecipe tc g1 a1 r1 q
              res1 hproc
          obtain ⟨hpe, _⟩ := oldBindingPairs_ok info q pairs hpairs
          obtain ⟨hrepf, hnkf, t, hte, htl, htg⟩ :=
            portLoop_spec isSub ctrl info newRecipe.plot tc q
              ((alookup newRecipe.parameters q).getD [])
              ⟨g1, buildOldParams pairs, [], a1⟩ pairs
              (buildOldParams_represents pairs)
              (buildOldParams_nodupKeys pairs) st hfold
          rw [← hpe] at hj
          have hgj := htg j gp hj
          refine ⟨res1.2.1, ?_, ?_⟩
          · rw [hcm]
            simpa using hlk
          · rw [hres1]
            dsimp only
            rw [hte]
            simpa using hgj
        · have hnew : alookup newRecipe.parameters q = none := by
            apply alookup_eq_none_of_not_mem
            intro hmem
            exact hqmem ((mem_unionKeys _ _ q).2 (Or.inr hmem))
          rw [hnew] at hj
          simp [matchGroups] at hj

theorem alookup_isSome_iff {α β : Type} [DecidableEq α]
    (d : List (α × β)) (q : α) :
    (alookup d q).isSome = true ↔ q ∈ d.map Prod.fst := by
  constructor
  · intro h
    obtain ⟨v, hv⟩ := Option.isSome_iff_exists.1 h
    exact List.mem_map_of_mem Prod.fst (alookup_mem d q v hv)
  · intro h
    by_contra hn
    rw [Option.not_isSome_iff_eq_none] at hn
    obtain ⟨e, he, rfl⟩ := List.mem_map.1 h
    unfold alookup at hn
    rw [Option.map_eq_none'] at hn
    have := List.find?_eq_none.1 hn e he
    simp at this

/-- Witness for claim C1 at a concrete input: the surviving binding of the
data port carries its stored group, with id 102, into position 0 of the
returned connection map. -/
theorem claim_C1_value_matching_witness :
    (update_pipeline (fun _ _ => true) exCtrl exInfo exNewRecipe
        none).result = Except.ok exInfoUpd ∧
    (matchGroups (oldFlat exInfo "data")
      ((alookup exInfoUpd.recipe.parameters "data").getD [])).1.get? 0 =
      some (some (PGroup.ids [102])) ∧
    ∃ gs, alookup exInfoUpd.conn_map "data" = some gs ∧
      gs.get? 0 = some (PGroup.ids [102]) :=
  ⟨by decide, by decide,
   claim_C1_value_matching (fun _ _ => true) exCtrl exInfo exNewRecipe none
     exInfoUpd (by decide) "data" 0 (PGroup.ids [102]) (by decide)⟩

/-- Claim C10: after an update that commits (a non-no-op update), the
returned connection map has an entry exactly for every port name appearing
in either recipe, and a port whose bindings were all removed is still
present, mapping to the empty list of groups. -/
theorem claim_C10_union_ports (isSub : String → String → Bool)
    (ctrl : Controller) (info : PipelineInformation) (newRecipe : Recipe)
    (tc : Option Typecaster) (info2 : PipelineInformation)
    (hres : (update_pipeline isSub ctrl info newRecipe tc).result =
      Except.ok info2)
    (hcommit : (update_pipeline isSub ctrl info newRecipe tc).commits = 1) :
    (∀ q : String,
      ((q ∈ info.recipe.parameters.map Prod.fst ∨
        q ∈ newRecipe.parameters.map Prod.fst) ↔
      (alookup info2.conn_map q).isSome = true)) ∧
    ∀ q gs, alookup info2.conn_map q = some gs →
      (alookup newRecipe.parameters q).getD [] = [] → gs = [] := by
  unfold update_pipeline at hres hcommit
  by_cases hp : info.recipe.plot ≠ newRecipe.plot
  · rw [if_pos hp] at hcommit
    simp at hcommit
  · rw [if_neg hp] at hres hcommit
    cases hcore : updateCore isSub ctrl info newRecipe tc with
    | error e =>
      rw [hcore] at hcommit
      simp at hcommit
    | ok tup =>
      rw [hcore] at hres hcommit
      obtain ⟨g, cm, added, removed⟩ := tup
      unfold updateCore at hcore
      obtain ⟨ents, hcm, hkeys, hall⟩ :=
        foldKeys_entries isSub ctrl info newRecipe tc
          (unionKeys info.recipe newRecipe) _ _
          (unionKeys_nodup info.recipe newRecipe) hcore
      dsimp only at hres hcommit hcm
      by_cases hno : added = [] ∧ removed = []
      · rw [if_pos hno] at hcommit
        simp at hcommit
      · rw [if_neg hno] at hres
        have hinfo2 : info2 =
            ⟨ctrl.nextVersion, newRecipe, cm, info.port_map⟩ :=
          (Except.ok.inj hres).symm
        rw [hinfo2]
        rw [List.nil_append] at hcm
        subst hcm
        constructor
        · intro q
          dsimp only
          rw [alookup_isSome_iff, hkeys, mem_unionKeys]
        · intro q gs hgs hnews
          dsimp only at hgs
          have hqmem : q ∈ unionKeys info.recipe newRecipe := by
            rw [← hkeys]
            exact (alookup_isSome_iff cm q).1 (by rw [hgs]; rfl)
          obtain ⟨g1, a1, r1, res1, hproc, hlk⟩ := hall q hqmem
          obtain ⟨pairs, st, fin, hpairs, hfold, hleft, hres1⟩ :=
            updProcessPort_inv isSub ctrl info newRecipe tc g1 a1 r1 q
              res1 hproc
          obtain ⟨_, _, t, hte, htl, _⟩ :=
            portLoop_spec isSub ctrl info newRecipe.plot tc q
              ((alookup newRecipe.parameters q).getD [])
              ⟨g1, buildOldParams pairs, [], a1⟩ pairs
              (buildOldParams_represents pairs)
              (buildOldParams_nodupKeys pairs) st hfold
          rw [hnews] at htl
          simp only [List.length_nil] at htl
          have hteq : t = [] := List.eq_nil_of_length_eq_zero htl
          have hgs2 : gs = res1.2.1 := by
            rw [hgs] at hlk
            exact (Option.some_inj.1 hlk.symm).symm
          rw [hgs2, hres1]
          dsimp only
          rw [hte, hteq]
          rfl

/-- Witness for claim C10 at a concrete input: after updating the example
from two bindings to one, the data port still has an entry and no other
port appears. -/
theorem claim_C10_union_ports_witness :
    (update_pipeline (fun _ _ => true) exCtrl exInfo exNewRecipe
        none).result = Except.ok exInfoUpd ∧
    (update_pipeline (fun _ _ => true) exCtrl exInfo exNewRecipe
        none).commits = 1 ∧
    ((∀ q : String,
      ((q ∈ exInfo.recipe.parameters.map Prod.fst ∨
        q ∈ exNewRecipe.parameters.map Prod.fst) ↔
      (alookup exInfoUpd.conn_map q).isSome = true)) ∧
    ∀ q gs, alookup exInfoUpd.conn_map q = some gs →
      (alookup exNewRecipe.parameters q).getD [] = [] → gs = []) :=
  ⟨by decide, by decide,
   claim_C10_union_ports (fun _ _ => true) exCtrl exInfo exNewRecipe none
     exInfoUpd (by decide) (by decide)⟩

theorem constWire_lengths (mId : Nat) (pps : List (Nat × String)) :
    ∀ n, (constWire n mId pps).1.length = pps.length ∧
      (constWire n mId pps).2.length = pps.length := by
  induction pps with
  | nil => intro n; simp [constWire]
  | cons pp rest ih =>
    intro n
    simp [constWire, (ih (n + 1)).1, (ih (n + 1)).2]

theorem constWire_all_addConnection (mId : Nat)
    (pps : List (Nat × String)) :
    ∀ n, ∀ op ∈ (constWire n mId pps).1, op.isAddConnection = true := by
  induction pps with
  | nil => intro n op hop; simp [constWire] at hop
  | cons pp rest ih =>
    intro n op hop
    rw [show constWire n mId (pp :: rest) =
        (Op.addConnection ⟨n, mId, "value", pp.1, pp.2⟩ ::
          (constWire (n + 1) mId rest).1,
         n :: (constWire (n + 1) mId rest).2) from rfl] at hop
    rcases List.mem_cons.1 hop with rfl | hop2
    · rfl
    · exact ih (n + 1) op hop2

theorem constFold (mId : Nat) (pps : List (Nat × String)) :
    ∀ (g : GenState) (acc : List Nat),
      pps.foldl
        (fun acc2 pp =>
          ((connectModules acc2.1 mId "value" pp.1 pp.2).1,
           acc2.2 ++ [(connectModules acc2.1 mId "value" pp.1 pp.2).2]))
        (g, acc) =
      (⟨g.ops ++ (constWire g.nextId mId pps).1, g.nextId + pps.length⟩,
       acc ++ (constWire g.nextId mId pps).2) := by
  induction pps with
  | nil => intro g acc; simp [constWire]
  | cons pp rest ih =>
    intro g acc
    rw [List.foldl_cons]
    rw [show ((connectModules g mId "value" pp.1 pp.2).1,
        acc ++ [(connectModules g mId "value" pp.1 pp.2).2]) =
      ((⟨g.ops ++ [Op.addConnection ⟨g.nextId, mId, "value", pp.1, pp.2⟩],
        g.nextId + 1⟩ : GenState), acc ++ [g.nextId]) from rfl]
    rw [ih]
    rw [show constWire g.nextId mId (pp :: rest) =
        (Op.addConnection ⟨g.nextId, mId, "value", pp.1, pp.2⟩ ::
          (constWire (g.nextId + 1) mId rest).1,
         g.nextId :: (constWire (g.nextId + 1) mId rest).2) from rfl]
    simp only [List.append_assoc, List.singleton_append, List.cons_append,
      List.nil_append, List.length_cons]
    rw [show g.nextId + 1 + rest.length = g.nextId + (rest.length + 1) from
      by omega]

theorem add_constant_module_eq (g : GenState) (d v : String)
    (pps : List (Nat × String)) :
    add_constant_module g d v pps =
      (⟨g.ops ++ Op.addModule ⟨g.nextId, d, []⟩ ::
          Op.updateFunction g.nextId "value" [v] ::
          (constWire (g.nextId + 1) g.nextId pps).1,
        g.nextId + 1 + pps.length⟩,
       (constWire (g.nextId + 1) g.nextId pps).2) := by
  unfold add_constant_module genUpdateFunction
  dsimp only
  rw [constFold g.nextId pps
    ⟨g.ops ++ [Op.addModule ⟨g.nextId, d, []⟩] ++
      [Op.updateFunction g.nextId "value" [v]], g.nextId + 1⟩ []]
  simp [List.append_assoc]

theorem resolvePlotPorts_ok (pipeline : Pipeline)
    (info : PipelineInformation) (P : String) (pm : List (Nat × String))
    (hpm : alookup info.port_map (some P) = some pm)
    (hin : ∀ e ∈ pm,
      pipeline.modules.any (fun m => m.id == e.1) = true) :
    resolvePlotPorts pipeline info P = Except.ok pm := by
  unfold resolvePlotPorts
  rw [hpm]
  suffices h : ∀ (l : List (Nat × String)) (acc : List (Nat × String)),
      (∀ e ∈ l, pipeline.modules.any (fun m => m.id == e.1) = true) →
      l.foldlM
        (fun acc e =>
          if pipeline.modules.any (fun m => m.id == e.1) = true then
            pure (acc ++ [e])
          else throw Err.keyError)
        acc = Except.ok (acc ++ l) by
    simpa using h pm [] hin
  intro l
  induction l with
  | nil => intro acc h0; simp [List.foldlM, pure, Except.pure]
  | cons e rest ih =>
    intro acc h0
    rw [List.foldlM_cons, if_pos (h0 e (List.mem_cons_self e rest))]
    rw [show ∀ {α β : Type} (x : α) (f : α → Except Err β),
        pure x >>= f = f x from fun x f => rfl]
    rw [ih (acc ++ [e]) (fun e2 he2 => h0 e2 (List.mem_cons_of_mem e he2))]
    simp

theorem foldlM_append_except {σ α : Type} (f : σ → α → Except Err σ)
    (l1 l2 : List α) (s : σ) :
    (l1 ++ l2).foldlM f s =
      l1.foldlM f s >>= fun s2 => l2.foldlM f s2 := by
  induction l1 generalizing s with
  | nil =>
    rw [List.nil_append]
    rfl
  | cons a l1 ih =>
    rw [List.cons_append, List.foldlM_cons, List.foldlM_cons]
    cases h : f s a with
    | error e => rfl
    | ok s1 =>
      rw [show ∀ {β : Type} (x : σ) (k : σ → Except Err β),
          Except.ok x >>= k = k x from fun x k => rfl]
      rw [show ∀ {β : Type} (x : σ) (k : σ → Except Err β),
          Except.ok x >>= k = k x from fun x k => rfl]
      exact ih s1

theorem ok_bind {α β : Type} (x : α) (f : α → Except Err β) :
    (Except.ok x : Except Err α) >>= f = f x := rfl

theorem opPop_none_of_represents_nil
    (d : List (RecipeParameterValue × List PGroup)) (hrep : Represents d [])
    (p : RecipeParameterValue) : opPop d p = none := by
  apply opPop_eq_none
  rw [hrep p]
  rfl

theorem updStep_const_eq (isSub : String → String → Bool)
    (ctrl : Controller) (info : PipelineInformation) (plot : Plot)
    (tc : Option Typecaster) (port : String) (st : PortLoopState)
    (c : String) (pp : PlotPort) (pm : List (Nat × String))
    (hpop : opPop st.dict (RecipeParameterValue.const c) = none)
    (hrp : resolvePlotPorts ctrl.pipeline info port = Except.ok pm)
    (hpp : nameToPort plot.ports port = some pp) :
    updNewParamStep isSub ctrl info plot tc port st
        (RecipeParameterValue.const c) =
      Except.ok ⟨(add_constant_module st.gen pp.type c pm).1, st.dict,
        st.connLists ++
          [PGroup.ids (add_constant_module st.gen pp.type c pm).2],
        st.added ++ [port]⟩ := by
  unfold updNewParamStep
  rw [hpop, hrp, ok_bind, hpp]
  rfl

theorem updProcessPort_addconst (isSub : String → String → Bool)
    (ctrl : Controller) (info : PipelineInformation) (newRecipe : Recipe)
    (tc : Option Typecaster) (g : GenState) (a r : List String) (P : String)
    (c : String) (pairs : List (RecipeParameterValue × PGroup))
    (pm : List (Nat × String)) (pp : PlotPort)
    (hpairs : oldBindingPairs info P
      ((alookup info.recipe.parameters P).getD []) = Except.ok pairs)
    (hnews : (alookup newRecipe.parameters P).getD [] =
      pairs.map Prod.fst ++ [RecipeParameterValue.const c])
    (hpm : alookup info.port_map (some P) = some pm)
    (hin : ∀ e ∈ pm,
      ctrl.pipeline.modules.any (fun m => m.id == e.1) = true)
    (hpp : nameToPort newRecipe.plot.ports P = some pp) :
    updProcessPort isSub ctrl info newRecipe tc g a r P =
      Except.ok
        (⟨g.ops ++ Op.addModule ⟨g.nextId, pp.type, []⟩ ::
            Op.updateFunction g.nextId "value" [c] ::
            (constWire (g.nextId + 1) g.nextId pm).1,
          g.nextId + 1 + pm.length⟩,
         pairs.map Prod.snd ++
           [PGroup.ids (constWire (g.nextId + 1) g.nextId pm).2],
         a ++ [P], r) := by
  obtain ⟨d2, hfold, hrep2, hnk2⟩ :=
    portLoop_self isSub ctrl info newRecipe.plot tc P pairs
      ⟨g, buildOldParams pairs, [], a⟩
      (buildOldParams_represents pairs) (buildOldParams_nodupKeys pairs)
  unfold updProcessPort
  dsimp only
  rw [hpairs, ok_bind, hnews, foldlM_append_except, hfold, ok_bind,
    List.foldlM_cons]
  rw [updStep_const_eq isSub ctrl info newRecipe.plot tc P
    ⟨(⟨g, buildOldParams pairs, [], a⟩ : PortLoopState).gen, d2,
      (⟨g, buildOldParams pairs, [], a⟩ : PortLoopState).connLists ++
        pairs.map Prod.snd,
      (⟨g, buildOldParams pairs, [], a⟩ : PortLoopState).added⟩
    c pp pm (opPop_none_of_represents_nil d2 hrep2 _)
    (resolvePlotPorts_ok ctrl.pipeline info P pm hpm hin) hpp]
  rw [ok_bind]
  rw [show ∀ st0 : PortLoopState, List.foldlM
      (updNewParamStep isSub ctrl info newRecipe.plot tc P) st0 [] =
      Except.ok st0 from fun st0 => rfl]
  rw [ok_bind]
  dsimp only
  rw [leftoverFold_empty ctrl.pipeline P d2 _ r
    (represents_nil_queues d2 hrep2 hnk2)]
  rw [ok_bind]
  rw [add_constant_module_eq]
  dsimp only
  simp only [List.nil_append]
  rfl

theorem alookup_append_of_some {α β : Type} [DecidableEq α]
    (l1 l2 : List (α × β)) (q : α) (v : β) (h : alookup l1 q = some v) :
    alookup (l1 ++ l2) q = some v := by
  induction l1 with
  | nil => rw [alookup_nil] at h; exact absurd h (by simp)
  | cons e rest ih =>
    obtain ⟨k, w⟩ := e
    rw [alookup_cons] at h
    rw [List.cons_append, alookup_cons]
    by_cases hk : k = q
    · rw [if_pos hk] at h ⊢; exact h
    · rw [if_neg hk] at h ⊢; exact ih h

theorem alookup_append_of_none {α β : Type} [DecidableEq α]
    (l1 l2 : List (α × β)) (q : α) (h : alookup l1 q = none) :
    alookup (l1 ++ l2) q = alookup l2 q := by
  induction l1 with
  | nil => rfl
  | cons e rest ih =>
    obtain ⟨k, w⟩ := e
    rw [alookup_cons] at h
    rw [List.cons_append, alookup_cons]
    by_cases hk : k = q
    · rw [if_pos hk] at h; exact absurd h (by simp)
    · rw [if_neg hk] at h ⊢; exact ih h

theorem alookup_map_self {γ : Type} (K : List String) (F : String → γ)
    (q : String) :
    alookup (K.map (fun k => (k, F k))) q =
      if q ∈ K then some (F q) else none := by
  induction K with
  | nil => simp [alookup_nil]
  | cons k ks ih =>
    rw [List.map_cons, alookup_cons, ih]
    by_cases hk : k = q
    · subst hk
      rw [if_pos rfl, if_pos (List.mem_cons_self k ks)]
    · rw [if_neg hk]
      by_cases hq : q ∈ ks
      · rw [if_pos hq, if_pos (List.mem_cons_of_mem k hq)]
      · rw [if_neg hq, if_neg ?_]
        intro hmem
        rcases List.mem_cons.1 hmem with rfl | hq2
        · exact hk rfl
        · exact hq hq2

theorem any_key_iff (ps : List (String × List RecipeParameterValue))
    (P : String) :
    ps.any (fun e => decide (e.1 = P)) = true ↔ P ∈ ps.map Prod.fst := by
  rw [List.any_eq_true]
  constructor
  · rintro ⟨e, he, hd⟩
    rw [decide_eq_true_eq] at hd
    rw [← hd]
    exact List.mem_map_of_mem Prod.fst he
  · intro h
    obtain ⟨e, he, rfl⟩ := List.mem_map.1 h
    exact ⟨e, he, by simp⟩

theorem addConstBinding_map_keys
    (ps : List (String × List RecipeParameterValue)) (P : String)
    (c : String) :
    (ps.map (fun e =>
      if e.1 = P then (e.1, e.2 ++ [RecipeParameterValue.const c])
      else e)).map Prod.fst = ps.map Prod.fst := by
  rw [List.map_map]
  apply List.map_congr_left
  intro e _
  by_cases he : e.1 = P
  · simp [he]
  · simp [he]

theorem addConstBinding_keys
    (ps : List (String × List RecipeParameterValue)) (P : String)
    (c : String) (q : String) :
    q ∈ (addConstBinding ps P c).map Prod.fst ↔
      q ∈ ps.map Prod.fst ∨ q = P := by
  unfold addConstBinding
  by_cases hany : ps.any (fun e => decide (e.1 = P)) = true
  · rw [if_pos hany, addConstBinding_map_keys]
    constructor
    · exact Or.inl
    · rintro (h | rfl)
      · exact h
      · exact (any_key_iff ps q).1 hany
  · rw [if_neg hany]
    simp [List.mem_append, eq_comm]

theorem mapAdd_lookup_ne
    (ps : List (String × List RecipeParameterValue)) (P : String)
    (c : String) (q : String) (hq : q ≠ P) :
    alookup (ps.map (fun e =>
      if e.1 = P then (e.1, e.2 ++ [RecipeParameterValue.const c])
      else e)) q = alookup ps q := by
  induction ps with
  | nil => rfl
  | cons e rest ih =>
    obtain ⟨k, vs⟩ := e
    by_cases hk : k = P
    · rw [List.map_cons, show ((if (k, vs).1 = P then
          ((k, vs).1, (k, vs).2 ++ [RecipeParameterValue.const c])
          else (k, vs)) : String × List RecipeParameterValue) =
        (k, vs ++ [RecipeParameterValue.const c]) from by simp [hk]]
      rw [alookup_cons, alookup_cons]
      have hkq : ¬(k = q) := by
        intro hh
        exact hq (by rw [← hh]; exact hk)
      rw [if_neg hkq, if_neg hkq]
      exact ih
    · rw [List.map_cons, show ((if (k, vs).1 = P then
          ((k, vs).1, (k, vs).2 ++ [RecipeParameterValue.const c])
          else (k, vs)) : String × List RecipeParameterValue) =
        (k, vs) from by simp [hk]]
      rw [alookup_cons, alookup_cons]
      by_cases hkq : k = q
      · rw [if_pos hkq, if_pos hkq]
      · rw [if_neg hkq, if_neg hkq]
        exact ih

theorem mapAdd_lookup_self
    (ps : List (String × List RecipeParameterValue)) (P : String)
    (c : String) (hmem : P ∈ ps.map Prod.fst) :
    alookup (ps.map (fun e =>
      if e.1 = P then (e.1, e.2 ++ [RecipeParameterValue.const c])
      else e)) P =
      some (((alookup ps P).getD []) ++ [RecipeParameterValue.const c]) := by
  induction ps with
  | nil => simp at hmem
  | cons e rest ih =>
    obtain ⟨k, vs⟩ := e
    by_cases hk : k = P
    · rw [List.map_cons, show ((if (k, vs).1 = P then
          ((k, vs).1, (k, vs).2 ++ [RecipeParameterValue.const c])
          else (k, vs)) : String × List RecipeParameterValue) =
        (k, vs ++ [RecipeParameterValue.const c]) from by simp [hk]]
      rw [alookup_cons, alookup_cons, if_pos hk, if_pos hk]
      rfl
    · rw [List.map_cons, show ((if (k, vs).1 = P then
          ((k, vs).1, (k, vs).2 ++ [RecipeParameterValue.const c])
          else (k, vs)) : String × List RecipeParameterValue) =
        (k, vs) from by simp [hk]]
      rw [alookup_cons, alookup_cons, if_neg hk, if_neg hk]
      apply ih
      rcases List.mem_cons.1 hmem with h1 | h1
      · exact absurd h1.symm hk
      · exact h1

theorem addConstBinding_lookup_ne
    (ps : List (String × List RecipeParameterValue)) (P : String)
    (c : String) (q : String) (hq : q ≠ P) :
    alookup (addConstBinding ps P c) q = alookup ps q := by
  unfold addConstBinding
  by_cases hany : ps.any (fun e => decide (e.1 = P)) = true
  · rw [if_pos hany]
    exact mapAdd_lookup_ne ps P c q hq
  · rw [if_neg hany]
    cases hlo : alookup ps q with
    | none =>
      rw [alookup_append_of_none ps _ q hlo, alookup_cons,
        if_neg (fun h => hq h.symm), alookup_nil]
    | some vs => exact alookup_append_of_some ps _ q vs hlo

theorem addConstBinding_lookup_self
    (ps : List (String × List RecipeParameterValue)) (P : String)
    (c : String) :
    alookup (addConstBinding ps P c) P =
      some (((alookup ps P).getD []) ++
        [RecipeParameterValue.const c]) := by
  unfold addConstBinding
  by_cases hany : ps.any (fun e => decide (e.1 = P)) = true
  · rw [if_pos hany]
    exact mapAdd_lookup_self ps P c ((any_key_iff ps P).1 hany)
  · rw [if_neg hany]
    have hnone : alookup ps P = none := by
      apply alookup_eq_none_of_not_mem
      intro hmem
      exact hany ((any_key_iff ps P).2 hmem)
    rw [alookup_append_of_none ps _ P hnone, alookup_cons, if_pos rfl,
      hnone]
    rfl

theorem nodup_split_not_mem {α : Type} (s t : List α) (x : α)
    (h : (s ++ x :: t).Nodup) : x ∉ s ∧ x ∉ t := by
  rw [List.nodup_append] at h
  obtain ⟨hs, hxt, hdisj⟩ := h
  exact ⟨fun hx => hdisj hx (List.mem_cons_self x t),
    (List.nodup_cons.1 hxt).1⟩

theorem op_addConnection_classify (op : Op)
    (h : op.isAddConnection = true) :
    op.isAddModule = false ∧ op.isDelete = false := by
  cases op <;> simp [Op.isAddModule, Op.isDelete, Op.isAddConnection] at h ⊢

/-- Claim C5: for two recipes over the same plot differing only by the
addition of one constant binding on port P, the update commits once and its
committed operations are exactly one new constant module, the setting of its
value function, and the connections wiring it to the plot ports recorded for
P (one per recorded port, no deletion); the group list of every other port
of the returned connection map is the stored group list of that port
carried verbatim, so no edge id of any other binding changes. -/
theorem claim_C5_diff_minimality (isSub : String → String → Bool)
    (ctrl : Controller) (info : PipelineInformation) (tc : Option Typecaster)
    (P c : String) (newRecipe : Recipe) (pm : List (Nat × String))
    (pp : PlotPort)
    (hplot : newRecipe.plot = info.recipe.plot)
    (hparams : newRecipe.parameters =
      addConstBinding info.recipe.parameters P c)
    (hcov : RecipeCovered info)
    (hpm : alookup info.port_map (some P) = some pm)
    (hin : ∀ e ∈ pm,
      ctrl.pipeline.modules.any (fun m => m.id == e.1) = true)
    (hpp : nameToPort newRecipe.plot.ports P = some pp) :
    ∃ info2,
      update_pipeline isSub ctrl info newRecipe tc =
        ⟨Except.ok info2,
         Op.addModule ⟨ctrl.nextId, pp.type, []⟩ ::
           Op.updateFunction ctrl.nextId "value" [c] ::
           (constWire (ctrl.nextId + 1) ctrl.nextId pm).1, 1⟩ ∧
      (update_pipeline isSub ctrl info newRecipe tc).ops.countP
        Op.isAddModule = 1 ∧
      (update_pipeline isSub ctrl info newRecipe tc).ops.countP
        Op.isAddConnection = pm.length ∧
      (∀ op ∈ (update_pipeline isSub ctrl info newRecipe tc).ops,
        Op.isDelete op = false) ∧
      alookup info2.conn_map P =
        some ((oldFlat info P).map Prod.snd ++
          [PGroup.ids (constWire (ctrl.nextId + 1) ctrl.nextId pm).2]) ∧
      ∀ q, q ≠ P → ∀ gs2, alookup info2.conn_map q = some gs2 →
        gs2 = (oldFlat info q).map Prod.snd := by
  have hPkeys : P ∈ unionKeys info.recipe newRecipe := by
    rw [mem_unionKeys]
    right
    rw [hparams]
    exact (addConstBinding_keys info.recipe.parameters P c P).2 (Or.inr rfl)
  obtain ⟨K1, K2, hsplit⟩ := List.append_of_mem hPkeys
  have hnd := unionKeys_nodup info.recipe newRecipe
  rw [hsplit] at hnd
  obtain ⟨hP1, hP2⟩ := nodup_split_not_mem K1 K2 P hnd
  have hMne : ∀ q, q ≠ P →
      oldBindingPairs info q
        ((alookup info.recipe.parameters q).getD []) =
        Except.ok (oldFlat info q) ∧
      (alookup newRecipe.parameters q).getD [] =
        (oldFlat info q).map Prod.fst := by
    intro q hq
    refine ⟨(recipeCovered_pairs info hcov q).1, ?_⟩
    rw [hparams, addConstBinding_lookup_ne info.recipe.parameters P c q hq]
    exact (recipeCovered_pairs info hcov q).2
  have hnewsP : (alookup newRecipe.parameters P).getD [] =
      (oldFlat info P).map Prod.fst ++ [RecipeParameterValue.const c] := by
    rw [hparams, addConstBinding_lookup_self]
    simp only [Option.getD_some]
    rw [(recipeCovered_pairs info hcov P).2]
  have hPstep : updPortStep isSub ctrl info newRecipe tc
      (⟨[], ctrl.nextId⟩,
       [] ++ K1.map (fun q => (q, (oldFlat info q).map Prod.snd)),
       [], []) P =
    Except.ok
      (⟨([] : List Op) ++ Op.addModule ⟨ctrl.nextId, pp.type, []⟩ ::
          Op.updateFunction ctrl.nextId "value" [c] ::
          (constWire (ctrl.nextId + 1) ctrl.nextId pm).1,
        ctrl.nextId + 1 + pm.length⟩,
       ([] ++ K1.map (fun q => (q, (oldFlat info q).map Prod.snd))) ++
         [(P, (oldFlat info P).map Prod.snd ++
           [PGroup.ids (constWire (ctrl.nextId + 1) ctrl.nextId pm).2])],
       [] ++ [P], []) := by
    unfold updPortStep
    rw [updProcessPort_addconst isSub ctrl info newRecipe tc
      ⟨[], ctrl.nextId⟩ [] [] P c (oldFlat info P) pm pp
      (recipeCovered_pairs info hcov P).1 hnewsP hpm hin hpp, ok_bind]
    rfl
  have hcore : updateCore isSub ctrl info newRecipe tc = Except.ok
      (⟨([] : List Op) ++ Op.addModule ⟨ctrl.nextId, pp.type, []⟩ ::
          Op.updateFunction ctrl.nextId "value" [c] ::
          (constWire (ctrl.nextId + 1) ctrl.nextId pm).1,
        ctrl.nextId + 1 + pm.length⟩,
       (([] ++ K1.map (fun q => (q, (oldFlat info q).map Prod.snd))) ++
         [(P, (oldFlat info P).map Prod.snd ++
           [PGroup.ids (constWire (ctrl.nextId + 1) ctrl.nextId pm).2])]) ++
         K2.map (fun q => (q, (oldFlat info q).map Prod.snd)),
       ([] ++ [P]) ++ ([] : List String), []) := by
    unfold updateCore
    rw [hsplit, foldlM_append_except,
      foldKeys_matchall isSub ctrl info newRecipe tc K1
        (fun q hq => hMne q (fun he => hP1 (he ▸ hq))),
      ok_bind, List.foldlM_cons, hPstep, ok_bind,
      foldKeys_matchall isSub ctrl info newRecipe tc K2
        (fun q hq => hMne q (fun he => hP2 (he ▸ hq)))]
    simp
  have hout : update_pipeline isSub ctrl info newRecipe tc =
      ⟨Except.ok ⟨ctrl.nextVersion, newRecipe,
        (([] ++ K1.map (fun q => (q, (oldFlat info q).map Prod.snd))) ++
          [(P, (oldFlat info P).map Prod.snd ++
            [PGroup.ids (constWire (ctrl.nextId + 1) ctrl.nextId pm).2])]) ++
          K2.map (fun q => (q, (oldFlat info q).map Prod.snd)),
        info.port_map⟩,
       Op.addModule ⟨ctrl.nextId, pp.type, []⟩ ::
         Op.updateFunction ctrl.nextId "value" [c] ::
         (constWire (ctrl.nextId + 1) ctrl.nextId pm).1, 1⟩ := by
    unfold update_pipeline
    rw [if_neg (by rw [hplot]; simp), hcore]
    dsimp only
    rw [if_neg (by simp)]
    rfl
  refine ⟨_, hout, ?_, ?_, ?_, ?_, ?_⟩
  · rw [hout]
    dsimp only
    rw [List.countP_cons_of_pos _ _ (by rfl),
      List.countP_cons_of_neg _ _ (by simp [Op.isAddModule])]
    rw [List.countP_eq_zero.2 ?_]
    · intro op hop
      rw [(op_addConnection_classify op
        (constWire_all_addConnection ctrl.nextId pm (ctrl.nextId + 1)
          op hop)).1]
      simp
  · rw [hout]
    dsimp only
    rw [List.countP_cons_of_neg _ _ (by simp [Op.isAddConnection]),
      List.countP_cons_of_neg _ _ (by simp [Op.isAddConnection])]
    rw [List.countP_eq_length.2
      (constWire_all_addConnection ctrl.nextId pm (ctrl.nextId + 1))]
    exact (constWire_lengths ctrl.nextId pm (ctrl.nextId + 1)).1
  · rw [hout]
    dsimp only
    intro op hop
    rcases List.mem_cons.1 hop with rfl | hop2
    · rfl
    rcases List.mem_cons.1 hop2 with rfl | hop3
    · rfl
    · exact (op_addConnection_classify op
        (constWire_all_addConnection ctrl.nextId pm (ctrl.nextId + 1)
          op hop3)).2
  · dsimp only
    have h1 : alookup
        (K1.map (fun q => (q, (oldFlat info q).map Prod.snd))) P = none := by
      rw [alookup_map_self, if_neg hP1]
    have h2 : alookup
        (([] ++ K1.map (fun q => (q, (oldFlat info q).map Prod.snd))) ++
          [(P, (oldFlat info P).map Prod.snd ++
            [PGroup.ids (constWire (ctrl.nextId + 1) ctrl.nextId pm).2])]) P =
        some ((oldFlat info P).map Prod.snd ++
          [PGroup.ids (constWire (ctrl.nextId + 1) ctrl.nextId pm).2]) := by
      rw [List.nil_append, alookup_append_of_none _ _ P h1, alookup_cons,
        if_pos rfl]
    exact alookup_append_of_some _ _ P _ h2
  · dsimp only
    intro q hq gs2 hgs2
    rw [List.nil_append] at hgs2
    by_cases hq1 : q ∈ K1
    · have h1 : alookup
          (K1.map (fun q => (q, (oldFlat info q).map Prod.snd))) q =
          some ((oldFlat info q).map Prod.snd) := by
        rw [alookup_map_self, if_pos hq1]
      rw [alookup_append_of_some _ _ q _
        (alookup_append_of_some _ _ q _ h1)] at hgs2
      exact (Option.some_inj.1 hgs2).symm
    · have h1 : alookup
          (K1.map (fun q => (q, (oldFlat info q).map Prod.snd))) q =
          none := by
        rw [alookup_map_self, if_neg hq1]
      have h2 : alookup
          (K1.map (fun q => (q, (oldFlat info q).map Prod.snd)) ++
            [(P, (oldFlat info P).map Prod.snd ++
              [PGroup.ids
                (constWire (ctrl.nextId + 1) ctrl.nextId pm).2])]) q =
          none := by
        rw [alookup_append_of_none _ _ q h1, alookup_cons,
          if_neg (fun h => hq h.symm), alookup_nil]
      rw [alookup_append_of_none _ _ q h2, alookup_map_self] at hgs2
      by_cases hq2 : q ∈ K2
      · rw [if_pos hq2] at hgs2
        exact (Option.some_inj.1 hgs2).symm
      · rw [if_neg hq2] at hgs2
        exact absurd hgs2 (by simp)

/-- Witness for claim C5 on the concrete example: adding the constant
binding "red" on the data port stages one constant module, its value
function and one wiring connection, and leaves the other groups alone. -/
theorem claim_C5_diff_minimality_witness :
    ∃ info2,
      update_pipeline (fun _ _ => true) exCtrl exInfo
        ⟨exPlot, addConstBinding exInfo.recipe.parameters "data" "red"⟩
        none =
        ⟨Except.ok info2,
         Op.addModule ⟨exCtrl.nextId, "T", []⟩ ::
           Op.updateFunction exCtrl.nextId "value" ["red"] ::
           (constWire (exCtrl.nextId + 1) exCtrl.nextId [(10, "in")]).1,
         1⟩ ∧
      (update_pipeline (fun _ _ => true) exCtrl exInfo
        ⟨exPlot, addConstBinding exInfo.recipe.parameters "data" "red"⟩
        none).ops.countP Op.isAddModule = 1 ∧
      (update_pipeline (fun _ _ => true) exCtrl exInfo
        ⟨exPlot, addConstBinding exInfo.recipe.parameters "data" "red"⟩
        none).ops.countP Op.isAddConnection = [(10, "in")].length ∧
      (∀ op ∈ (update_pipeline (fun _ _ => true) exCtrl exInfo
        ⟨exPlot, addConstBinding exInfo.recipe.parameters "data" "red"⟩
        none).ops, Op.isDelete op = false) ∧
      alookup info2.conn_map "data" =
        some ((oldFlat exInfo "data").map Prod.snd ++
          [PGroup.ids
            (constWire (exCtrl.nextId + 1) exCtrl.nextId [(10, "in")]).2]) ∧
      ∀ q, q ≠ "data" → ∀ gs2, alookup info2.conn_map q = some gs2 →
        gs2 = (oldFlat exInfo q).map Prod.snd :=
  claim_C5_diff_minimality (fun _ _ => true) exCtrl exInfo none "data" "red"
    ⟨exPlot, addConstBinding exInfo.recipe.parameters "data" "red"⟩
    [(10, "in")] ⟨"data", "T"⟩ (by decide) rfl (by decide) (by decide)
    (by decide) (by decide)

theorem mem_insertConn (c x : Connection) (l : List Connection) :
    c ∈ insertConn x l ↔ c = x ∨ c ∈ l := by
  unfold insertConn
  by_cases h : x ∈ l
  · simp only [if_pos h]
    constructor
    · exact Or.inr
    · rintro (rfl | hm)
      · exact h
      · exact hm
  · simp [if_neg h, List.mem_append, or_comm]

theorem nodup_foldl_insertMod (l l0 : List Module) (h0 : l0.Nodup) :
    (l.foldl (fun acc m => insertMod m acc) l0).Nodup := by
  induction l generalizing l0 with
  | nil => exact h0
  | cons m ms ih =>
    rw [List.foldl_cons]
    unfold insertMod
    by_cases hm : m ∈ l0
    · rw [if_pos hm]
      exact ih l0 h0
    · rw [if_neg hm]
      apply ih
      rw [List.nodup_append]
      refine ⟨h0, List.nodup_singleton m, ?_⟩
      intro a ha hak
      rw [List.mem_singleton] at hak
      subst hak
      exact hm ha

theorem nodup_map_id_inj {l : List Module} (h : (l.map Module.id).Nodup)
    {v w : Module} (hv : v ∈ l) (hw : w ∈ l) (he : v.id = w.id) : v = w := by
  induction l with
  | nil => exact absurd hv (by simp)
  | cons a t ih =>
    rw [List.map_cons, List.nodup_cons] at h
    rcases List.mem_cons.1 hv with rfl | hv2
    · rcases List.mem_cons.1 hw with rfl | hw2
      · rfl
      · exact absurd (he ▸ List.mem_map_of_mem Module.id hw2) h.1
    · rcases List.mem_cons.1 hw with rfl | hw2
      · exact absurd (he ▸ List.mem_map_of_mem Module.id hv2) h.1
      · exact ih h.2 hv2 hw2

theorem find_id_of_mem_nodup {v : Module} :
    ∀ (l : List Module), (l.map Module.id).Nodup → v ∈ l →
      l.find? (fun m => m.id == v.id) = some v := by
  intro l
  induction l with
  | nil => intro _ hv; exact absurd hv (by simp)
  | cons a t ih =>
    intro h hv
    rw [List.map_cons, List.nodup_cons] at h
    by_cases ha : a.id = v.id
    · have hva : v = a := by
        rcases List.mem_cons.1 hv with rfl | hv2
        · rfl
        · exact absurd (ha ▸ List.mem_map_of_mem Module.id hv2) h.1
      rw [List.find?_cons_of_pos _ (by simp [ha]), hva]
    · have hva : v ∈ t := by
        rcases List.mem_cons.1 hv with rfl | hv2
        · exact absurd rfl ha
        · exact hv2
      rw [List.find?_cons_of_neg _ (by simp [ha]), ih h.2 hva]

theorem mem_moduleConnections (p : Pipeline) (i : Nat) (c : Connection) :
    c ∈ moduleConnections p i ↔
      c ∈ p.connections ∧ (c.sourceId = i ∨ c.destId = i) := by
  unfold moduleConnections
  simp [List.mem_filter]

theorem processConn_mono (p : Pipeline) (mf : Module → Bool)
    (cf : Connection → Bool) (i : Nat) (st : BfsState) (c : Connection) :
    st.toDelete ⊆ (processConn p mf cf i st c).toDelete ∧
    st.newOpen ⊆ (processConn p mf cf i st c).newOpen := by
  unfold processConn
  dsimp only
  repeat' split
  all_goals first
    | exact ⟨List.Subset.refl _, List.Subset.refl _⟩
    | exact ⟨List.subset_append_left _ _, List.subset_append_left _ _⟩

theorem foldl_processConn_mono (p : Pipeline) (mf : Module → Bool)
    (cf : Connection → Bool) (i : Nat) :
    ∀ (l : List Connection) (st : BfsState),
      st.toDelete ⊆ (l.foldl (processConn p mf cf i) st).toDelete ∧
      st.newOpen ⊆ (l.foldl (processConn p mf cf i) st).newOpen := by
  intro l
  induction l with
  | nil => exact fun st => ⟨List.Subset.refl _, List.Subset.refl _⟩
  | cons c t ih =>
    intro st
    rw [List.foldl_cons]
    exact ⟨(processConn_mono p mf cf i st c).1.trans
        (ih (processConn p mf cf i st c)).1,
      (processConn_mono p mf cf i st c).2.trans
        (ih (processConn p mf cf i st c)).2⟩

theorem processModule_mono (p : Pipeline) (mf : Module → Bool)
    (cf : Connection → Bool) (st : BfsState) (m : Module) :
    st.toDelete ⊆ (processModule p mf cf st m).toDelete ∧
    st.newOpen ⊆ (processModule p mf cf st m).newOpen :=
  foldl_processConn_mono p mf cf m.id (moduleConnections p m.id) st

theorem foldl_processModule_mono (p : Pipeline) (mf : Module → Bool)
    (cf : Connection → Bool) :
    ∀ (l : List Module) (st : BfsState),
      st.toDelete ⊆ (l.foldl (processModule p mf cf) st).toDelete ∧
      st.newOpen ⊆ (l.foldl (processModule p mf cf) st).newOpen := by
  intro l
  induction l with
  | nil => exact fun st => ⟨List.Subset.refl _, List.Subset.refl _⟩
  | cons m t ih =>
    intro st
    rw [List.foldl_cons]
    exact ⟨(processModule_mono p mf cf st m).1.trans
        (ih (processModule p mf cf st m)).1,
      (processModule_mono p mf cf st m).2.trans
        (ih (processModule p mf cf st m)).2⟩

theorem processConn_inv (p : Pipeline) (cf : Connection → Bool)
    (hwf : p.wf) (base : List Module) (m : Module) (hm : m ∈ p.modules)
    (st : BfsState) (c : Connection)
    (hc : c ∈ p.connections) (hcm : c.sourceId = m.id ∨ c.destId = m.id)
    (hmd : m ∈ st.toDelete)
    (hshape : st.toDelete = base ++ st.newOpen)
    (hmods : ∀ x ∈ st.toDelete, x ∈ p.modules)
    (hnd : st.toDelete.Nodup)
    (hvis : Visinv p cf st.visited st.toDelete) :
    (processConn p (fun _ => true) cf m.id st c).toDelete =
        base ++ (processConn p (fun _ => true) cf m.id st c).newOpen ∧
    (∀ x ∈ (processConn p (fun _ => true) cf m.id st c).toDelete,
      x ∈ p.modules) ∧
    (processConn p (fun _ => true) cf m.id st c).toDelete.Nodup ∧
    Visinv p cf (processConn p (fun _ => true) cf m.id st c).visited
      (processConn p (fun _ => true) cf m.id st c).toDelete := by
  unfold processConn
  dsimp only
  by_cases hcond : c ∉ st.visited ∧ cf c = true
  · rw [if_pos hcond]
    by_cases hsrc : c.sourceId = m.id
    · rw [if_pos hsrc]
      rcases List.mem_map.1 (hwf.2 c hc).2 with ⟨v0, hv0, hv0id⟩
      rw [← hv0id, find_id_of_mem_nodup p.modules hwf.1 hv0]
      dsimp only
      by_cases hvd : v0 ∈ st.toDelete
      · rw [if_pos hvd]
        exact ⟨hshape, hmods, hnd, hvis⟩
      · rw [if_neg hvd, if_pos rfl]
        refine ⟨by rw [hshape, List.append_assoc], ?_, ?_, ?_⟩
        · intro x hx
          rcases List.mem_append.1 hx with h | h
          · exact hmods x h
          · rw [List.mem_singleton] at h
            exact h ▸ hv0
        · rw [List.nodup_append]
          refine ⟨hnd, List.nodup_singleton v0, ?_⟩
          intro a ha hak
          rw [List.mem_singleton] at hak
          subst hak
          exact hvd ha
        · intro c2 hc2 hcf2 w hw hend
          rcases (mem_insertConn c2 c st.visited).1 hc2 with rfl | h2
          · rcases hend with h | h
            · rw [hsrc] at h
              have : w = m := nodup_map_id_inj hwf.1 hw hm h
              exact List.mem_append.2 (Or.inl (this ▸ hmd))
            · rw [← hv0id] at h
              have : w = v0 := nodup_map_id_inj hwf.1 hw hv0 h
              exact List.mem_append.2 (Or.inr (by rw [this, List.mem_singleton]))
          · exact List.mem_append.2 (Or.inl (hvis c2 h2 hcf2 w hw hend))
    · rw [if_neg hsrc]
      have hdst : c.destId = m.id := by
        rcases hcm with h | h
        · exact absurd h hsrc
        · exact h
      rcases List.mem_map.1 (hwf.2 c hc).1 with ⟨v0, hv0, hv0id⟩
      rw [← hv0id, find_id_of_mem_nodup p.modules hwf.1 hv0]
      dsimp only
      by_cases hvd : v0 ∈ st.toDelete
      · rw [if_pos hvd]
        exact ⟨hshape, hmods, hnd, hvis⟩
      · rw [if_neg hvd, if_pos rfl]
        refine ⟨by rw [hshape, List.append_assoc], ?_, ?_, ?_⟩
        · intro x hx
          rcases List.mem_append.1 hx with h | h
          · exact hmods x h
          · rw [List.mem_singleton] at h
            exact h ▸ hv0
        · rw [List.nodup_append]
          refine ⟨hnd, List.nodup_singleton v0, ?_⟩
          intro a ha hak
          rw [List.mem_singleton] at hak
          subst hak
          exact hvd ha
        · intro c2 hc2 hcf2 w hw hend
          rcases (mem_insertConn c2 c st.visited).1 hc2 with rfl | h2
          · rcases hend with h | h
            · rw [← hv0id] at h
              have : w = v0 := nodup_map_id_inj hwf.1 hw hv0 h
              exact List.mem_append.2 (Or.inr (by rw [this, List.mem_singleton]))
            · rw [hdst] at h
              have : w = m := nodup_map_id_inj hwf.1 hw hm h
              exact List.mem_append.2 (Or.inl (this ▸ hmd))
          · exact List.mem_append.2 (Or.inl (hvis c2 h2 hcf2 w hw hend))
  · rw [if_neg hcond]
    refine ⟨hshape, hmods, hnd, ?_⟩
    intro c2 hc2 hcf2 w hw hend
    rcases (mem_insertConn c2 c st.visited).1 hc2 with rfl | h2
    · have hcin : c2 ∈ st.visited := by
        by_contra hnot
        exact hcond ⟨hnot, hcf2⟩
      exact hvis c2 hcin hcf2 w hw hend
    · exact hvis c2 h2 hcf2 w hw hend

theorem foldl_processConn_inv (p : Pipeline) (cf : Connection → Bool)
    (hwf : p.wf) (base : List Module) (m : Module) (hm : m ∈ p.modules) :
    ∀ (l : List Connection) (st : BfsState),
      (∀ c ∈ l, c ∈ p.connections ∧
        (c.sourceId = m.id ∨ c.destId = m.id)) →
      m ∈ st.toDelete →
      st.toDelete = base ++ st.newOpen →
      (∀ x ∈ st.toDelete, x ∈ p.modules) →
      st.toDelete.Nodup →
      Visinv p cf st.visited st.toDelete →
      (l.foldl (processConn p (fun _ => true) cf m.id) st).toDelete =
          base ++
            (l.foldl (processConn p (fun _ => true) cf m.id) st).newOpen ∧
      (∀ x ∈ (l.foldl (processConn p (fun _ => true) cf m.id) st).toDelete,
        x ∈ p.modules) ∧
      (l.foldl (processConn p (fun _ => true) cf m.id) st).toDelete.Nodup ∧
      Visinv p cf
        (l.foldl (processConn p (fun _ => true) cf m.id) st).visited
        (l.foldl (processConn p (fun _ => true) cf m.id) st).toDelete := by
  intro l
  induction l with
  | nil =>
    intro st _ _ hshape hmods hnd hvis
    exact ⟨hshape, hmods, hnd, hvis⟩
  | cons c t ih =>
    intro st hl hmd hshape hmods hnd hvis
    rw [List.foldl_cons]
    obtain ⟨h1, h2, h3, h4⟩ := processConn_inv p cf hwf base m hm st c
      (hl c (List.mem_cons_self c t)).1 (hl c (List.mem_cons_self c t)).2
      hmd hshape hmods hnd hvis
    exact ih (processConn p (fun _ => true) cf m.id st c)
      (fun c2 hc2 => hl c2 (List.mem_cons_of_mem c hc2))
      ((processConn_mono p (fun _ => true) cf m.id st c).1 hmd) h1 h2 h3 h4

theorem processModule_inv (p : Pipeline) (cf : Connection → Bool)
    (hwf : p.wf) (base : List Module) (st : BfsState) (m : Module)
    (hm : m ∈ p.modules) (hmd : m ∈ st.toDelete)
    (hshape : st.toDelete = base ++ st.newOpen)
    (hmods : ∀ x ∈ st.toDelete, x ∈ p.modules)
    (hnd : st.toDelete.Nodup)
    (hvis : Visinv p cf st.visited st.toDelete) :
    (processModule p (fun _ => true) cf st m).toDelete =
        base ++ (processModule p (fun _ => true) cf st m).newOpen ∧
    (∀ x ∈ (processModule p (fun _ => true) cf st m).toDelete,
      x ∈ p.modules) ∧
    (processModule p (fun _ => true) cf st m).toDelete.Nodup ∧
    Visinv p cf (processModule p (fun _ => true) cf st m).visited
      (processModule p (fun _ => true) cf st m).toDelete :=
  foldl_processConn_inv p cf hwf base m hm (moduleConnections p m.id) st
    (fun c hc => (mem_moduleConnections p m.id c).1 hc) hmd hshape hmods hnd
    hvis

theorem processModule_closes (p : Pipeline) (cf : Connection → Bool)
    (hwf : p.wf) (base : List Module) (st : BfsState) (m : Module)
    (hm : m ∈ p.modules) (hmd : m ∈ st.toDelete)
    (hshape : st.toDelete = base ++ st.newOpen)
    (hmods : ∀ x ∈ st.toDelete, x ∈ p.modules)
    (hnd : st.toDelete.Nodup)
    (hvis : Visinv p cf st.visited st.toDelete) :
    ∀ v ∈ p.modules, ConnStep p cf m.id v.id →
      v ∈ (processModule p (fun _ => true) cf st m).toDelete := by
  intro v hv hstep
  obtain ⟨c, hcmem, hcf, hends⟩ := hstep
  have hctouch : c ∈ moduleConnections p m.id := by
    rw [mem_moduleConnections]
    refine ⟨hcmem, ?_⟩
    rcases hends with ⟨h1, _⟩ | ⟨h1, _⟩
    · exact Or.inl h1
    · exact Or.inr h1
  obtain ⟨l1, l2, hsplit2⟩ := List.append_of_mem hctouch
  unfold processModule
  rw [hsplit2, List.foldl_append, List.foldl_cons]
  have hl1 : ∀ c2 ∈ l1, c2 ∈ p.connections ∧
      (c2.sourceId = m.id ∨ c2.destId = m.id) := by
    intro c2 hc2
    exact (mem_moduleConnections p m.id c2).1
      (hsplit2 ▸ List.mem_append_left _ hc2)
  obtain ⟨h1, h2, h3, h4⟩ := foldl_processConn_inv p cf hwf base m hm l1 st
    hl1 hmd hshape hmods hnd hvis
  set st1 := l1.foldl (processConn p (fun _ => true) cf m.id) st with hst1
  have hsuff : v ∈ (processConn p (fun _ => true) cf m.id st1 c).toDelete →
      v ∈ (l2.foldl (processConn p (fun _ => true) cf m.id)
        (processConn p (fun _ => true) cf m.id st1 c)).toDelete :=
    fun h => (foldl_processConn_mono p _ cf m.id l2 _).1 h
  apply hsuff
  unfold processConn
  dsimp only
  by_cases hcond : c ∉ st1.visited ∧ cf c = true
  · rw [if_pos hcond]
    by_cases hsrc : c.sourceId = m.id
    · rw [if_pos hsrc]
      have hvid : c.destId = v.id := by
        rcases hends with ⟨_, h2'⟩ | ⟨h1', h2'⟩
        · exact h2'
        · rw [h1', ← h2', hsrc]
      rw [hvid, find_id_of_mem_nodup p.modules hwf.1 hv]
      dsimp only
      by_cases hvd : v ∈ st1.toDelete
      · rw [if_pos hvd]
        exact hvd
      · rw [if_neg hvd, if_pos rfl]
        exact List.mem_append.2 (Or.inr (List.mem_singleton.2 rfl))
    · rw [if_neg hsrc]
      have hvid : c.sourceId = v.id := by
        rcases hends with ⟨h1', _⟩ | ⟨_, h2'⟩
        · exact absurd h1' hsrc
        · exact h2'
      rw [hvid, find_id_of_mem_nodup p.modules hwf.1 hv]
      dsimp only
      by_cases hvd : v ∈ st1.toDelete
      · rw [if_pos hvd]
        exact hvd
      · rw [if_neg hvd, if_pos rfl]
        exact List.mem_append.2 (Or.inr (List.mem_singleton.2 rfl))
  · rw [if_neg hcond]
    have hcin : c ∈ st1.visited := by
      by_contra hnot
      exact hcond ⟨hnot, hcf⟩
    have hvend : v.id = c.sourceId ∨ v.id = c.destId := by
      rcases hends with ⟨_, h2'⟩ | ⟨_, h2'⟩
      · exact Or.inr h2'.symm
      · exact Or.inl h2'.symm
    exact h4 c hcin hcf v hv hvend

theorem bfsLoop_nil (p : Pipeline) (mf : Module → Bool)
    (cf : Connection → Bool) (d : Nat) (toDelete : List Module)
    (visited : List Connection) :
    bfsLoop p mf cf d [] toDelete visited = toDelete := by
  cases d with
  | zero => rfl
  | succ d => rw [bfsLoop, if_pos rfl]

theorem round_fold_inv (p : Pipeline) (cf : Connection → Bool)
    (hwf : p.wf) (base : List Module) :
    ∀ (pending : List Module) (st : BfsState),
      (∀ x ∈ pending, x ∈ base) →
      st.toDelete = base ++ st.newOpen →
      (∀ x ∈ st.toDelete, x ∈ p.modules) →
      st.toDelete.Nodup →
      (∀ u ∈ st.toDelete, u ∉ pending → u ∉ st.newOpen →
        ∀ v ∈ p.modules, ConnStep p cf u.id v.id → v ∈ st.toDelete) →
      Visinv p cf st.visited st.toDelete →
      (pending.foldl (processModule p (fun _ => true) cf) st).toDelete =
          base ++
            (pending.foldl (processModule p (fun _ => true) cf)
              st).newOpen ∧
      (∀ x ∈ (pending.foldl (processModule p (fun _ => true) cf)
          st).toDelete, x ∈ p.modules) ∧
      (pending.foldl (processModule p (fun _ => true) cf)
        st).toDelete.Nodup ∧
      (∀ u ∈ (pending.foldl (processModule p (fun _ => true) cf)
          st).toDelete,
        u ∉ (pending.foldl (processModule p (fun _ => true) cf)
          st).newOpen →
        ∀ v ∈ p.modules, ConnStep p cf u.id v.id →
          v ∈ (pending.foldl (processModule p (fun _ => true) cf)
            st).toDelete) ∧
      Visinv p cf
        (pending.foldl (processModule p (fun _ => true) cf) st).visited
        (pending.foldl (processModule p (fun _ => true) cf) st).toDelete := by
  intro pending
  induction pending with
  | nil =>
    intro st _ hshape hmods hnd hclosed hvis
    exact ⟨hshape, hmods, hnd,
      fun u hu hno => hclosed u hu (by simp) hno, hvis⟩
  | cons m rest ih =>
    intro st hpend hshape hmods hnd hclosed hvis
    rw [List.foldl_cons]
    have hmbase : m ∈ base := hpend m (List.mem_cons_self m rest)
    have hmd : m ∈ st.toDelete := by
      rw [hshape]
      exact List.mem_append_left _ hmbase
    have hm : m ∈ p.modules := hmods m hmd
    obtain ⟨h1, h2, h3, h4⟩ := processModule_inv p cf hwf base st m hm hmd
      hshape hmods hnd hvis
    refine ih (processModule p (fun _ => true) cf st m)
      (fun x hx => hpend x (List.mem_cons_of_mem m hx)) h1 h2 h3 ?_ h4
    intro u hu hurest hunop v hv hstep
    by_cases hum : u = m
    · subst hum
      exact processModule_closes p cf hwf base st u hm hmd hshape hmods hnd
        hvis v hv hstep
    · by_cases huold : u ∈ st.toDelete
      · have hnop : u ∉ st.newOpen :=
          fun h => hunop ((processModule_mono p (fun _ => true) cf st m).2 h)
        have hpendcons : u ∉ m :: rest := by
          intro h
          rcases List.mem_cons.1 h with h2' | h2'
          · exact hum h2'
          · exact hurest h2'
        exact (processModule_mono p (fun _ => true) cf st m).1
          (hclosed u huold hpendcons hnop v hv hstep)
      · exfalso
        rw [h1] at hu
        rcases List.mem_append.1 hu with h | h
        · exact huold (by rw [hshape]; exact List.mem_append_left _ h)
        · exact hunop h

theorem closed_reach (p : Pipeline) (cf : Connection → Bool) (hwf : p.wf)
    (S : List Module) (hmodsS : ∀ m ∈ S, m ∈ p.modules)
    (hclosed : ∀ u ∈ S, ∀ v ∈ p.modules, ConnStep p cf u.id v.id → v ∈ S) :
    ∀ x ∈ p.modules, ∀ u ∈ S, Reaches p cf u.id x.id → x ∈ S := by
  intro x hx u hu hreach
  have key : ∀ y, Relation.ReflTransGen (ConnStep p cf) u.id y →
      ∃ w, w ∈ S ∧ w.id = y := by
    intro y hy
    induction hy with
    | refl => exact ⟨u, hu, rfl⟩
    | tail hab hbc ih =>
      obtain ⟨w, hw, hwid⟩ := ih
      obtain ⟨conn, hcmem, hcf, hends⟩ := hbc
      rcases hends with ⟨he1, he2⟩ | ⟨he1, he2⟩
      · obtain ⟨v, hv, hvid⟩ := List.mem_map.1 (hwf.2 conn hcmem).2
        refine ⟨v, hclosed w hw v hv
          ⟨conn, hcmem, hcf, Or.inl ⟨by rw [he1, hwid], hvid.symm⟩⟩, ?_⟩
        rw [hvid, he2]
      · obtain ⟨v, hv, hvid⟩ := List.mem_map.1 (hwf.2 conn hcmem).1
        refine ⟨v, hclosed w hw v hv
          ⟨conn, hcmem, hcf, Or.inr ⟨by rw [he1, hwid], hvid.symm⟩⟩, ?_⟩
        rw [hvid, he2]
  obtain ⟨w, hw, hwid⟩ := key x.id hreach
  have : w = x := nodup_map_id_inj hwf.1 (hmodsS w hw) hx hwid
  exact this ▸ hw

theorem processConn_sound (p : Pipeline) (mf : Module → Bool)
    (cf : Connection → Bool) (G : Module → Prop)
    (hG : ∀ a b, G a → b ∈ p.modules → ConnStep p cf a.id b.id → G b)
    (m : Module) (hGm : G m) (st : BfsState) (c : Connection)
    (hc : c ∈ p.connections) (hcm : c.sourceId = m.id ∨ c.destId = m.id)
    (hTD : ∀ x ∈ st.toDelete, G x) (hNO : ∀ x ∈ st.newOpen, G x) :
    (∀ x ∈ (processConn p mf cf m.id st c).toDelete, G x) ∧
    (∀ x ∈ (processConn p mf cf m.id st c).newOpen, G x) := by
  unfold processConn
  dsimp only
  by_cases hcond : c ∉ st.visited ∧ cf c = true
  · rw [if_pos hcond]
    by_cases hsrc : c.sourceId = m.id
    · rw [if_pos hsrc]
      cases hfind : p.modules.find? (fun x => x.id == c.destId) with
      | none => exact ⟨hTD, hNO⟩
      | some other =>
        dsimp only
        have hoth : other ∈ p.modules := List.mem_of_find?_eq_some hfind
        have hothid : other.id = c.destId := by
          have := List.find?_some hfind
          simpa using this
        have hGoth : G other := hG m other hGm hoth
          ⟨c, hc, hcond.2, Or.inl ⟨hsrc, hothid.symm⟩⟩
        by_cases hin : other ∈ st.toDelete
        · rw [if_pos hin]
          exact ⟨hTD, hNO⟩
        · rw [if_neg hin]
          by_cases hmf : mf other = true
          · rw [if_pos hmf]
            constructor
            · intro x hx
              rcases List.mem_append.1 hx with h | h
              · exact hTD x h
              · rw [List.mem_singleton] at h
                exact h ▸ hGoth
            · intro x hx
              rcases List.mem_append.1 hx with h | h
              · exact hNO x h
              · rw [List.mem_singleton] at h
                exact h ▸ hGoth
          · rw [if_neg hmf]
            exact ⟨hTD, hNO⟩
    · rw [if_neg hsrc]
      have hdst : c.destId = m.id := by
        rcases hcm with h | h
        · exact absurd h hsrc
        · exact h
      cases hfind : p.modules.find? (fun x => x.id == c.sourceId) with
      | none => exact ⟨hTD, hNO⟩
      | some other =>
        dsimp only
        have hoth : other ∈ p.modules := List.mem_of_find?_eq_some hfind
        have hothid : other.id = c.sourceId := by
          have := List.find?_some hfind
          simpa using this
        have hGoth : G other := hG m other hGm hoth
          ⟨c, hc, hcond.2, Or.inr ⟨hdst, hothid.symm⟩⟩
        by_cases hin : other ∈ st.toDelete
        · rw [if_pos hin]
          exact ⟨hTD, hNO⟩
        · rw [if_neg hin]
          by_cases hmf : mf other = true
          · rw [if_pos hmf]
            constructor
            · intro x hx
              rcases List.mem_append.1 hx with h | h
              · exact hTD x h
              · rw [List.mem_singleton] at h
                exact h ▸ hGoth
            · intro x hx
              rcases List.mem_append.1 hx with h | h
              · exact hNO x h
              · rw [List.mem_singleton] at h
                exact h ▸ hGoth
          · rw [if_neg hmf]
            exact ⟨hTD, hNO⟩
  · rw [if_neg hcond]
    exact ⟨hTD, hNO⟩

theorem foldl_processConn_sound (p : Pipeline) (mf : Module → Bool)
    (cf : Connection → Bool) (G : Module → Prop)
    (hG : ∀ a b, G a → b ∈ p.modules → ConnStep p cf a.id b.id → G b)
    (m : Module) (hGm : G m) :
    ∀ (l : List Connection) (st : BfsState),
      (∀ c ∈ l, c ∈ p.connections ∧
        (c.sourceId = m.id ∨ c.destId = m.id)) →
      (∀ x ∈ st.toDelete, G x) → (∀ x ∈ st.newOpen, G x) →
      (∀ x ∈ (l.foldl (processConn p mf cf m.id) st).toDelete, G x) ∧
      (∀ x ∈ (l.foldl (processConn p mf cf m.id) st).newOpen, G x) := by
  intro l
  induction l with
  | nil =>
    intro st _ hTD hNO
    exact ⟨hTD, hNO⟩
  | cons c t ih =>
    intro st hl hTD hNO
    rw [List.foldl_cons]
    obtain ⟨h1, h2⟩ := processConn_sound p mf cf G hG m hGm st c
      (hl c (List.mem_cons_self c t)).1 (hl c (List.mem_cons_self c t)).2
      hTD hNO
    exact ih (processConn p mf cf m.id st c)
      (fun c2 hc2 => hl c2 (List.mem_cons_of_mem c hc2)) h1 h2

theorem foldl_processModule_sound (p : Pipeline) (mf : Module → Bool)
    (cf : Connection → Bool) (G : Module → Prop)
    (hG : ∀ a b, G a → b ∈ p.modules → ConnStep p cf a.id b.id → G b) :
    ∀ (pending : List Module) (st : BfsState),
      (∀ m ∈ pending, G m) →
      (∀ x ∈ st.toDelete, G x) → (∀ x ∈ st.newOpen, G x) →
      (∀ x ∈ (pending.foldl (processModule p mf cf) st).toDelete, G x) ∧
      (∀ x ∈ (pending.foldl (processModule p mf cf) st).newOpen, G x) := by
  intro pending
  induction pending with
  | nil =>
    intro st _ hTD hNO
    exact ⟨hTD, hNO⟩
  | cons m rest ih =>
    intro st hpend hTD hNO
    rw [List.foldl_cons]
    obtain ⟨h1, h2⟩ := foldl_processConn_sound p mf cf G hG m
      (hpend m (List.mem_cons_self m rest)) (moduleConnections p m.id) st
      (fun c hc => (mem_moduleConnections p m.id c).1 hc) hTD hNO
    exact ih (processModule p mf cf st m)
      (fun x hx => hpend x (List.mem_cons_of_mem m hx)) h1 h2

theorem bfsLoop_sound (p : Pipeline) (mf : Module → Bool)
    (cf : Connection → Bool) (G : Module → Prop)
    (hG : ∀ a b, G a → b ∈ p.modules → ConnStep p cf a.id b.id → G b) :
    ∀ (d : Nat) (openList toDelete : List Module)
      (visited : List Connection),
      (∀ m ∈ openList, G m) → (∀ m ∈ toDelete, G m) →
      ∀ x ∈ bfsLoop p mf cf d openList toDelete visited, G x := by
  intro d
  induction d with
  | zero =>
    intro openList toDelete visited _ hTD x hx
    exact hTD x hx
  | succ d ih =>
    intro openList toDelete visited hopen hTD x hx
    rw [bfsLoop] at hx
    by_cases ho : openList = []
    · rw [if_pos ho] at hx
      exact hTD x hx
    · rw [if_neg ho] at hx
      dsimp only at hx
      obtain ⟨h1, h2⟩ := foldl_processModule_sound p mf cf G hG openList
        ⟨toDelete, visited, []⟩ hopen hTD
        (fun y hy => absurd hy (List.not_mem_nil y))
      exact ih _ _ _ h2 h1 x hx

theorem bfsLoop_complete (p : Pipeline) (cf : Connection → Bool)
    (hwf : p.wf) :
    ∀ (d : Nat) (openList toDelete : List Module)
      (visited : List Connection),
      (∀ m ∈ openList, m ∈ toDelete) →
      (∀ m ∈ toDelete, m ∈ p.modules) →
      toDelete.Nodup →
      (∀ u ∈ toDelete, u ∉ openList →
        ∀ v ∈ p.modules, ConnStep p cf u.id v.id → v ∈ toDelete) →
      Visinv p cf visited toDelete →
      p.modules.length + 1 ≤ d + toDelete.length →
      ∀ x ∈ p.modules, ∀ u ∈ toDelete, Reaches p cf u.id x.id →
        x ∈ bfsLoop p (fun _ => true) cf d openList toDelete visited := by
  intro d
  induction d with
  | zero =>
    intro openList toDelete visited _ hmods hnd _ _ hfuel x hx u hu hreach
    exfalso
    have hlen : toDelete.length ≤ p.modules.length :=
      List.Subperm.length_le (List.Nodup.subperm hnd
        (fun a ha => hmods a ha))
    omega
  | succ d ih =>
    intro openList toDelete visited hopen hmods hnd hclosed hvis hfuel x hx
      u hu hreach
    rw [bfsLoop]
    by_cases ho : openList = []
    · rw [if_pos ho]
      subst ho
      exact closed_reach p cf hwf toDelete hmods
        (fun u2 hu2 => hclosed u2 hu2 (by simp)) x hx u hu hreach
    · rw [if_neg ho]
      dsimp only
      have hshape0 : (⟨toDelete, visited, []⟩ : BfsState).toDelete =
          toDelete ++ (⟨toDelete, visited, []⟩ : BfsState).newOpen := by
        dsimp only
        rw [List.append_nil]
      obtain ⟨h1, h2, h3, h4, h5⟩ := round_fold_inv p cf hwf toDelete
        openList ⟨toDelete, visited, []⟩ hopen hshape0 hmods hnd
        (fun u2 hu2 hnp _ => hclosed u2 hu2 hnp) hvis
      show x ∈ bfsLoop p (fun _ => true) cf d
        (openList.foldl (processModule p (fun _ => true) cf)
          ⟨toDelete, visited, []⟩).newOpen
        (openList.foldl (processModule p (fun _ => true) cf)
          ⟨toDelete, visited, []⟩).toDelete
        (openList.foldl (processModule p (fun _ => true) cf)
          ⟨toDelete, visited, []⟩).visited
      by_cases hnew : (openList.foldl (processModule p (fun _ => true) cf)
          ⟨toDelete, visited, []⟩).newOpen = []
      · rw [hnew, bfsLoop_nil]
        exact closed_reach p cf hwf _ h2
          (fun u2 hu2 => h4 u2 hu2 (by rw [hnew]; exact List.not_mem_nil u2)) x hx u
          (by rw [h1]; exact List.mem_append_left _ hu) hreach
      · apply ih _ _ _
          (fun m hm => by rw [h1]; exact List.mem_append_right _ hm)
          h2 h3 h4 h5 ?_ x hx u
          (by rw [h1]; exact List.mem_append_left _ hu) hreach
        have hgrow : 1 ≤ (openList.foldl (processModule p (fun _ => true) cf)
            ⟨toDelete, visited, []⟩).newOpen.length :=
          List.length_pos.2 hnew
        have hlen2 : (openList.foldl (processModule p (fun _ => true) cf)
            ⟨toDelete, visited, []⟩).toDelete.length =
            toDelete.length + (openList.foldl (processModule p
              (fun _ => true) cf) ⟨toDelete, visited, []⟩).newOpen.length :=
          by rw [h1, List.length_append]
        omega

theorem deleteLinkedModules_iff (p : Pipeline) (seeds : List Module)
    (cf : Connection → Bool) (depth : Nat) (hwf : p.wf)
    (hseeds : ∀ s ∈ seeds, s ∈ p.modules)
    (hdepth : p.modules.length < depth) :
    ∀ m, m ∈ deleteLinkedModules p seeds (fun _ => true) cf depth ↔
      (m ∈ p.modules ∧ ∃ s ∈ seeds, Reaches p cf s.id m.id) := by
  intro m
  unfold deleteLinkedModules
  constructor
  · intro hm
    refine bfsLoop_sound p (fun _ => true) cf
      (fun x => x ∈ p.modules ∧ ∃ s ∈ seeds, Reaches p cf s.id x.id)
      ?_ depth seeds _ [] ?_ ?_ m hm
    · intro a b ha hb hstep
      obtain ⟨s, hs, hr⟩ := ha.2
      exact ⟨hb, s, hs, hr.tail hstep⟩
    · exact fun s hs => ⟨hseeds s hs, s, hs, Relation.ReflTransGen.refl⟩
    · intro x hx
      rcases (mem_foldl_insertMod seeds [] x).1 hx with h | h
      · exact absurd h (List.not_mem_nil x)
      · exact ⟨hseeds x h, x, h, Relation.ReflTransGen.refl⟩
  · rintro ⟨hm, s, hs, hr⟩
    refine bfsLoop_complete p cf hwf depth seeds _ []
      (fun x hx => (mem_foldl_insertMod seeds [] x).2 (Or.inr hx))
      ?_ (nodup_foldl_insertMod seeds [] List.nodup_nil) ?_
      (fun c hc => absurd hc (List.not_mem_nil c)) ?_ m hm s
      ((mem_foldl_insertMod seeds [] s).2 (Or.inr hs)) hr
    · intro x hx
      rcases (mem_foldl_insertMod seeds [] x).1 hx with h | h
      · exact absurd h (List.not_mem_nil x)
      · exact hseeds x h
    · intro u hu hnot
      rcases (mem_foldl_insertMod seeds [] u).1 hu with h | h
      · exact absurd h (List.not_mem_nil u)
      · exact absurd h hnot
    · have : (seeds.foldl (fun l m2 => insertMod m2 l) []).length ≥ 0 :=
        Nat.zero_le _
      omega

theorem seedsFold_mem (p : Pipeline) :
    ∀ (conns : List Connection) (acc seeds : List Module),
      (∀ a ∈ acc, a ∈ p.modules) →
      conns.foldlM
        (fun acc c =>
          (match p.modules.find? (fun m => m.id == c.sourceId) with
          | some m => pure (insertMod m acc)
          | none => throw Err.keyError : Except Err (List Module))) acc =
        Except.ok seeds →
      ∀ s ∈ seeds, s ∈ p.modules := by
  intro conns
  induction conns with
  | nil =>
    intro acc seeds hacc h
    have hae : acc = seeds := by
      simpa [pure, Except.pure] using h
    exact hae ▸ hacc
  | cons c t ih =>
    intro acc seeds hacc h
    rw [List.foldlM_cons] at h
    obtain ⟨mid, hmid, hrest⟩ := (except_bind_ok _ _ _).1 h
    cases hfind : p.modules.find? (fun m => m.id == c.sourceId) with
    | none =>
      rw [hfind] at hmid
      exact absurd hmid (by simp [throw, throwThe, MonadExceptOf.throw])
    | some m0 =>
      rw [hfind] at hmid
      have hmid2 : mid = insertMod m0 acc := by
        simpa [pure, Except.pure] using hmid.symm
      subst hmid2
      refine ih _ seeds ?_ hrest
      intro a ha
      rcases (mem_insertMod a m0 acc).1 ha with rfl | h2
      · exact List.mem_of_find?_eq_some hfind
      · exact hacc a h2

/-- Claim C2 (corrected): when update_pipeline deletes a leftover old
binding, it runs reachability deletion seeded at the source modules of the
binding's own recorded connections, with depth sys.maxint and an edge
filter that excludes those very recorded connections (not the surviving
edges of still-live bindings), and on a well-formed pipeline the set of
modules so removed is exactly the set reachable from those seeds through
filter-passing connections. -/
theorem claim_C2_leftover_deletion (pipeline : Pipeline) (g : GenState)
    (cids : List Nat) (conns : List Connection) (seeds : List Module)
    (hwf : pipeline.wf) (hsmall : pipeline.modules.length < sysMaxint)
    (hconns : cids.foldlM
      (fun acc cid =>
        (match pipeline.connections.find? (fun c => c.id == cid) with
        | some c => pure (insertConn c acc)
        | none => throw Err.keyError : Except Err (List Connection))) [] =
      Except.ok conns)
    (hseeds : conns.foldlM
      (fun acc c =>
        (match pipeline.modules.find? (fun m => m.id == c.sourceId) with
        | some m => pure (insertMod m acc)
        | none => throw Err.keyError : Except Err (List Module))) [] =
      Except.ok seeds) :
    deleteLeftoverGroup pipeline g (PGroup.ids cids) = Except.ok
      ⟨g.ops ++ (delete_linked pipeline seeds (fun _ => true)
        (fun c => decide (c ∉ conns)) sysMaxint).ops, g.nextId⟩ ∧
    ∀ m, m ∈ deleteLinkedModules pipeline seeds (fun _ => true)
        (fun c => decide (c ∉ conns)) sysMaxint ↔
      (m ∈ pipeline.modules ∧ ∃ s ∈ seeds,
        Reaches pipeline (fun c => decide (c ∉ conns)) s.id m.id) := by
  constructor
  · unfold deleteLeftoverGroup
    dsimp only
    rw [hconns, ok_bind]
    rw [hseeds, ok_bind]
    rfl
  · exact fun m => deleteLinkedModules_iff pipeline seeds _ sysMaxint hwf
      (seedsFold_mem pipeline conns [] seeds
        (fun a ha => absurd ha (List.not_mem_nil a)) hseeds)
      hsmall m

/-- Witness for the corrected claim C2 on the example pipeline: the
leftover group holding connection 101 is deleted by reachability deletion
seeded at module 1, filtering out connection 101 itself. -/
theorem claim_C2_leftover_deletion_witness :
    deleteLeftoverGroup exPipe ⟨[], 0⟩ (PGroup.ids [101]) = Except.ok
      ⟨([] : List Op) ++ (delete_linked exPipe [exV1] (fun _ => true)
        (fun c => decide (c ∉ [exE1])) sysMaxint).ops, 0⟩ ∧
    ∀ m, m ∈ deleteLinkedModules exPipe [exV1] (fun _ => true)
        (fun c => decide (c ∉ [exE1])) sysMaxint ↔
      (m ∈ exPipe.modules ∧ ∃ s ∈ [exV1],
        Reaches exPipe (fun c => decide (c ∉ [exE1])) s.id m.id) :=
  claim_C2_leftover_deletion exPipe ⟨[], 0⟩ [101] [exE1] [exV1]
    (by unfold Pipeline.wf; decide) (by decide) (by decide) (by decide)

theorem getLast_or_cons {α : Type} (a : α) (l : List α) (y : Option α) :
    ((a :: l).getLast?).or y = (l.getLast?).or (some a) := by
  cases l with
  | nil => rfl
  | cons b t =>
    rw [List.getLast?_cons_cons]
    obtain ⟨v, hv⟩ := Option.isSome_iff_exists.1
      (List.getLast?_isSome.2 (List.cons_ne_nil b t))
    rw [hv]
    rfl

theorem varCopyStep_marker (g : GenState) (mpAcc : List (Nat × Nat))
    (out0 : Option Nat) (m : Module) (hm : isOutputMarker m = true) :
    varCopyStep (g, mpAcc, out0) m = (g, mpAcc, some m.id) := by
  unfold varCopyStep
  rw [if_pos hm]

theorem varCopyStep_copy (g : GenState) (mpAcc : List (Nat × Nat))
    (out0 : Option Nat) (m : Module) (hm : ¬isOutputMarker m = true) :
    varCopyStep (g, mpAcc, out0) m =
      (⟨g.ops ++ [Op.addModule ⟨g.nextId, m.descriptor, m.functions⟩],
        g.nextId + 1⟩, mpAcc ++ [(m.id, g.nextId)], out0) := by
  unfold varCopyStep
  rw [if_neg hm]
  rfl

theorem varCopyFold_eq :
    ∀ (mods : List Module) (g : GenState) (mpAcc : List (Nat × Nat))
      (out0 : Option Nat),
      mods.foldl varCopyStep (g, mpAcc, out0) =
      (⟨g.ops ++
          (spliceCopy g.nextId
            (mods.filter (fun m => !isOutputMarker m))).1,
        g.nextId + (mods.filter (fun m => !isOutputMarker m)).length⟩,
       mpAcc ++
         (spliceCopy g.nextId
           (mods.filter (fun m => !isOutputMarker m))).2,
       (((mods.filter isOutputMarker).map Module.id).getLast?).or out0) := by
  intro mods
  induction mods with
  | nil =>
    intro g mpAcc out0
    simp [spliceCopy, Option.or]
  | cons m rest ih =>
    intro g mpAcc out0
    rw [List.foldl_cons]
    by_cases hm : isOutputMarker m = true
    · rw [varCopyStep_marker g mpAcc out0 m hm, ih g mpAcc (some m.id)]
      simp only [List.filter_cons, hm, Bool.not_true, if_neg, if_pos,
        Bool.false_eq_true, not_false_eq_true, List.map_cons]
      rw [getLast_or_cons]
    · rw [varCopyStep_copy g mpAcc out0 m hm,
        ih ⟨g.ops ++ [Op.addModule ⟨g.nextId, m.descriptor, m.functions⟩],
          g.nextId + 1⟩ (mpAcc ++ [(m.id, g.nextId)]) out0]
      have hf : isOutputMarker m = false := Bool.eq_false_iff.2 hm
      have hb : (!isOutputMarker m) = true := by
        rw [hf]
        rfl
      dsimp only
      rw [show (m :: rest).filter (fun x => !isOutputMarker x) =
          m :: rest.filter (fun x => !isOutputMarker x) from
          List.filter_cons_of_pos hb,
        show (m :: rest).filter isOutputMarker =
          rest.filter isOutputMarker from List.filter_cons_of_neg hm]
      simp only [spliceCopy, List.length_cons, Prod.mk.injEq,
        GenState.mk.injEq]
      refine ⟨⟨?_, ?_⟩, ?_, trivial⟩
      · rw [List.append_assoc]
        rfl
      · omega
      · rw [List.append_assoc]
        rfl

theorem pureE_bind {α β : Type} (x : α) (f : α → Except Err β) :
    (pure x : Except Err α) >>= f = f x := rfl

theorem bind_ne_value {α β : Type} (x : Except Err α)
    (f : α → Except Err β) (msg : String)
    (hx : ∀ m2, x ≠ Except.error (Err.valueError m2))
    (hf : ∀ a m2, f a ≠ Except.error (Err.valueError m2)) :
    x >>= f ≠ Except.error (Err.valueError msg) := by
  cases x with
  | error e =>
    intro h
    have he : e = Err.valueError msg := by
      simpa [Bind.bind, Except.bind] using h
    exact hx msg (by rw [he])
  | ok a =>
    intro h
    rw [ok_bind] at h
    exact hf a msg h

theorem varConnStep_dest (mp : List (Nat × Nat)) (outId : Nat)
    (g : GenState) (c : Connection) (hd : c.destId = outId) :
    varConnStep mp outId g c = Except.ok g := by
  unfold varConnStep
  rw [if_pos hd]
  rfl

theorem varConnStep_copy (mp : List (Nat × Nat)) (outId : Nat)
    (g : GenState) (c : Connection) (hd : ¬c.destId = outId)
    (s d : Nat) (hs2 : alookup mp c.sourceId = some s)
    (hd2 : alookup mp c.destId = some d) :
    varConnStep mp outId g c = Except.ok
      ⟨g.ops ++ [Op.addConnection ⟨g.nextId, s, c.sourcePort, d,
        c.destPort⟩], g.nextId + 1⟩ := by
  unfold varConnStep
  rw [if_neg hd, hs2, hd2]
  rfl

theorem varConnStep_no_value (mp : List (Nat × Nat)) (outId : Nat)
    (g : GenState) (c : Connection) (msg : String) :
    varConnStep mp outId g c ≠ Except.error (Err.valueError msg) := by
  unfold varConnStep
  by_cases hd : c.destId = outId
  · rw [if_pos hd]
    intro h
    simp [pure, Except.pure] at h
  · rw [if_neg hd]
    cases hs : alookup mp c.sourceId with
    | none =>
      cases hdm : alookup mp c.destId with
      | none =>
        intro h
        simp [throw, throwThe, MonadExceptOf.throw] at h
      | some d =>
        intro h
        simp [throw, throwThe, MonadExceptOf.throw] at h
    | some s =>
      cases hdm : alookup mp c.destId with
      | none =>
        intro h
        simp [throw, throwThe, MonadExceptOf.throw] at h
      | some d =>
        intro h
        simp [pure, Except.pure] at h

theorem varCopyConnections_eq (mp : List (Nat × Nat)) (outId : Nat) :
    ∀ (conns : List Connection) (g : GenState),
      (∀ c ∈ conns, c.destId ≠ outId →
        (alookup mp c.sourceId).isSome ∧ (alookup mp c.destId).isSome) →
      varCopyConnections g mp outId conns = Except.ok
        ⟨g.ops ++ spliceWire mp g.nextId
          (conns.filter (fun c => decide (c.destId ≠ outId))),
         g.nextId +
          (conns.filter (fun c => decide (c.destId ≠ outId))).length⟩ := by
  intro conns
  induction conns with
  | nil =>
    intro g _
    show Except.ok g = _
    simp [spliceWire]
  | cons c rest ih =>
    intro g hc
    unfold varCopyConnections at ih ⊢
    rw [List.foldlM_cons]
    by_cases hd : c.destId = outId
    · rw [varConnStep_dest mp outId g c hd, ok_bind]
      rw [ih g (fun c2 h2 => hc c2 (List.mem_cons_of_mem c h2))]
      have hnd : ¬(decide (c.destId ≠ outId)) = true := by
        simp [hd]
      rw [show (c :: rest).filter (fun x => decide (x.destId ≠ outId)) =
          rest.filter (fun x => decide (x.destId ≠ outId)) from
          List.filter_cons_of_neg hnd]
    · obtain ⟨hs, hdm⟩ := hc c (List.mem_cons_self c rest) hd
      obtain ⟨s, hs2⟩ := Option.isSome_iff_exists.1 hs
      obtain ⟨d, hd2⟩ := Option.isSome_iff_exists.1 hdm
      rw [varConnStep_copy mp outId g c hd s d hs2 hd2, ok_bind]
      rw [ih ⟨g.ops ++ [Op.addConnection ⟨g.nextId, s, c.sourcePort, d,
          c.destPort⟩], g.nextId + 1⟩
        (fun c2 h2 => hc c2 (List.mem_cons_of_mem c h2))]
      have hb : (decide (c.destId ≠ outId)) = true := by
        simp [hd]
      rw [show (c :: rest).filter (fun x => decide (x.destId ≠ outId)) =
          c :: rest.filter (fun x => decide (x.destId ≠ outId)) from
          List.filter_cons_of_pos hb]
      simp only [spliceWire, List.length_cons]
      rw [hs2, hd2]
      simp only [Option.getD_some]
      refine congrArg Except.ok ?_
      refine congrArg₂ GenState.mk ?_ (by omega)
      rw [List.append_assoc]
      rfl

theorem varCopyConnections_no_value (mp : List (Nat × Nat)) (outId : Nat) :
    ∀ (conns : List Connection) (g : GenState) (msg : String),
      varCopyConnections g mp outId conns ≠
        Except.error (Err.valueError msg) := by
  intro conns
  induction conns with
  | nil =>
    intro g msg h
    exact absurd h (by simp [varCopyConnections, pure, Except.pure])
  | cons c rest ih =>
    intro g msg
    unfold varCopyConnections at ih ⊢
    rw [List.foldlM_cons]
    exact bind_ne_value _ _ msg
      (fun m2 => varConnStep_no_value mp outId g c m2)
      (fun a m2 => ih a m2)

theorem varFindOutput_no_value (mp : List (Nat × Nat)) (outId : Nat) :
    ∀ (conns : List Connection) (msg : String),
      varFindOutput mp outId conns ≠
        Except.error (Err.valueError msg) := by
  intro conns
  induction conns with
  | nil =>
    intro msg h
    exact absurd h (by simp [varFindOutput, throw, throwThe,
      MonadExceptOf.throw])
  | cons c rest ih =>
    intro msg h
    unfold varFindOutput at h
    by_cases hd : c.destId = outId
    · rw [if_pos hd] at h
      cases hs : alookup mp c.sourceId with
      | none =>
        rw [hs] at h
        exact absurd h (by simp [throw, throwThe, MonadExceptOf.throw])
      | some s =>
        rw [hs] at h
        exact absurd h (by simp [pure, Except.pure])
    · rw [if_neg hd] at h
      exact ih msg h

theorem varWirePlotPorts_inner_no_value (mp : List (Nat × Nat))
    (c : Connection) (plotPorts : List (Nat × String)) :
    ∀ (acc : GenState × List Nat) (msg : String),
      plotPorts.foldlM
        (fun acc2 pp =>
          (match alookup mp c.sourceId with
          | some s =>
            let (g2, cid) := connectModules acc2.1 s c.sourcePort pp.1 pp.2
            pure (g2, acc2.2 ++ [cid])
          | none => throw Err.keyError :
            Except Err (GenState × List Nat))) acc ≠
        Except.error (Err.valueError msg) := by
  induction plotPorts with
  | nil =>
    intro acc msg h
    exact absurd h (by simp [pure, Except.pure])
  | cons pp rest ih =>
    intro acc msg
    rw [List.foldlM_cons]
    refine bind_ne_value _ _ msg ?_ (fun a m2 => ih a m2)
    intro m2 h
    cases hs : alookup mp c.sourceId with
    | none =>
      rw [hs] at h
      simp [throw, throwThe, MonadExceptOf.throw] at h
    | some s =>
      rw [hs] at h
      simp [connectModules, pure, Except.pure] at h

theorem varWirePlotPorts_no_value (mp : List (Nat × Nat)) (outId : Nat)
    (plotPorts : List (Nat × String)) :
    ∀ (conns : List Connection) (acc : GenState × List Nat) (msg : String),
      conns.foldlM
        (fun acc c =>
          (if c.destId = outId then
            plotPorts.foldlM
              (fun acc2 pp =>
                match alookup mp c.sourceId with
                | some s =>
                  let (g2, cid) :=
                    connectModules acc2.1 s c.sourcePort pp.1 pp.2
                  pure (g2, acc2.2 ++ [cid])
                | none => throw Err.keyError)
              acc
          else pure acc : Except Err (GenState × List Nat))) acc ≠
        Except.error (Err.valueError msg) := by
  intro conns
  induction conns with
  | nil =>
    intro acc msg h
    exact absurd h (by simp [pure, Except.pure])
  | cons c rest ih =>
    intro acc msg
    rw [List.foldlM_cons]
    refine bind_ne_value _ _ msg ?_ (fun a m2 => ih a m2)
    intro m2
    by_cases hd : c.destId = outId
    · rw [if_pos hd]
      exact varWirePlotPorts_inner_no_value mp c plotPorts acc m2
    · rw [if_neg hd]
      intro h
      simp [pure, Except.pure] at h

/-- Claim C9 (corrected): splicing a variable subworkflow raises the
ValueError of the source (no MalformedTemplate exists there) exactly when
the template has no output-boundary marker; with more than one marker it
does not fail — the marker last in iteration order is the one used; every
non-marker module is copied under a successive fresh identity, and when
every connection not feeding the chosen marker has both endpoints among
the copied modules, all those connections are copied with both endpoints
remapped through the copy map. -/
theorem claim_C9_splice_markers (g : GenState) (vp : Pipeline)
    (plotPorts : List (Nat × String)) :
    (∀ msg, add_variable_subworkflow g vp plotPorts =
        Except.error (Err.valueError msg) ↔
      (vp.modules.filter isOutputMarker = [] ∧
        msg = "add_variable_subworkflow: variable pipeline has no OutputPort module")) ∧
    (varCopyModules g vp.modules).2.2 =
      ((vp.modules.filter isOutputMarker).map Module.id).getLast? ∧
    (varCopyModules g vp.modules).1 =
      ⟨g.ops ++ (spliceCopy g.nextId
        (vp.modules.filter (fun m => !isOutputMarker m))).1,
       g.nextId +
        (vp.modules.filter (fun m => !isOutputMarker m)).length⟩ ∧
    (varCopyModules g vp.modules).2.1 =
      (spliceCopy g.nextId
        (vp.modules.filter (fun m => !isOutputMarker m))).2 ∧
    (∀ outId g1,
      (∀ c ∈ vp.connections, c.destId ≠ outId →
        (alookup (varCopyModules g vp.modules).2.1 c.sourceId).isSome ∧
        (alookup (varCopyModules g vp.modules).2.1 c.destId).isSome) →
      varCopyConnections g1 (varCopyModules g vp.modules).2.1 outId
          vp.connections =
        Except.ok ⟨g1.ops ++ spliceWire (varCopyModules g vp.modules).2.1
            g1.nextId (vp.connections.filter
              (fun c => decide (c.destId ≠ outId))),
          g1.nextId + (vp.connections.filter
            (fun c => decide (c.destId ≠ outId))).length⟩) := by
  have hcopy : varCopyModules g vp.modules =
      (⟨g.ops ++ (spliceCopy g.nextId
          (vp.modules.filter (fun m => !isOutputMarker m))).1,
        g.nextId +
          (vp.modules.filter (fun m => !isOutputMarker m)).length⟩,
       (spliceCopy g.nextId
         (vp.modules.filter (fun m => !isOutputMarker m))).2,
       ((vp.modules.filter isOutputMarker).map Module.id).getLast?) := by
    unfold varCopyModules
    rw [varCopyFold_eq vp.modules g [] none]
    simp [Option.or_none]
  refine ⟨?_, by rw [hcopy], by rw [hcopy], by rw [hcopy],
    fun outId g1 hend => varCopyConnections_eq _ outId vp.connections g1
      hend⟩
  intro msg
  constructor
  · intro h
    unfold add_variable_subworkflow at h
    rw [hcopy] at h
    dsimp only at h
    by_cases hmk : vp.modules.filter isOutputMarker = []
    · rw [hmk] at h
      dsimp only [List.map_nil, List.getLast?] at h
      refine ⟨hmk, ?_⟩
      have := Except.error.inj h
      exact (Err.valueError.inj this).symm
    · exfalso
      have hmapne : (vp.modules.filter isOutputMarker).map Module.id ≠
          [] := by
        intro he
        exact hmk (List.map_eq_nil_iff.1 he)
      obtain ⟨v, hv⟩ := Option.isSome_iff_exists.1
        (List.getLast?_isSome.2 hmapne)
      rw [hv] at h
      dsimp only at h
      revert h
      refine bind_ne_value _ _ msg
        (fun m2 => varCopyConnections_no_value _ v vp.connections _ m2)
        ?_
      intro g2 m2
      by_cases hpp : plotPorts = []
      · rw [if_pos hpp]
        refine bind_ne_value _ _ m2
          (fun m3 => varFindOutput_no_value _ v vp.connections m3)
          ?_
        intro out m3 h2
        simp [pure, Except.pure] at h2
      · rw [if_neg hpp]
        refine bind_ne_value _ _ m2 (fun m3 =>
          varWirePlotPorts_no_value _ v plotPorts vp.connections (g2, [])
            m3) ?_
        intro r m3 h2
        simp [pure, Except.pure] at h2
  · rintro ⟨hmk, rfl⟩
    unfold add_variable_subworkflow
    rw [hcopy]
    dsimp only
    rw [hmk]
    rfl

/-- Witness for the corrected claim C9 on the two-marker variable pipeline:
the output id the copy phase settles on is the id of the LAST marker, 52,
not the first. -/
theorem claim_C9_splice_markers_witness :
    (varCopyModules ⟨[], 100⟩ exVarPipe2.modules).2.2 = some 52 :=
  (claim_C9_splice_markers ⟨[], 100⟩ exVarPipe2 [(10, "in")]).2.1.trans
    (by decide)

/-- Counterexample to claim C9 as stated: a variable pipeline with two
output-boundary markers does not make the splice fail — there is no
MalformedTemplate in the source and the last marker simply wins, the
splice succeeding. -/
theorem claim_C9_splice_markers_counterexample :
    (exVarPipe2.modules.filter isOutputMarker).length = 2 ∧
    ∃ r, add_variable_subworkflow ⟨[], 100⟩ exVarPipe2 [(10, "in")] =
      Except.ok r :=
  ⟨by decide, ⟨_, rfl⟩⟩

/-- Counterexample to claim C2 as stated: the filter the source passes to
delete_linked excludes the leftover binding's own recorded connections,
not the known surviving ones. On the example pipeline, filtering out the
surviving connection 102 instead would let the deletion cross connection
101 into the shared plot module 10 and remove it, while the actual update
from the old recipe to the new one stages only the deletion of connection
101 and of the private module 1, and never deletes the plot module. -/
theorem claim_C2_leftover_deletion_counterexample :
    Op.deleteModule exP10 ∈
      (delete_linked exPipe [exV1] (fun _ => true)
        (fun c => decide (c ∉ [exE2])) sysMaxint).ops ∧
    (update_pipeline (fun _ _ => true) exCtrl exInfo exNewRecipe none).ops =
      [Op.deleteConnection exE1, Op.deleteModule exV1] :=
  ⟨by decide, by decide⟩

/-- Claim C4 (code bug): create_pipeline violates the connection-map
invariant for a variable binding on a declared but unwired port. The group
count equals the binding count, but the group stored for the binding is a
(module id, port name) pair instead of the list of connection ids created
while wiring it: add_variable_subworkflow tests plot_ports for truthiness,
so a given-but-empty list takes the branch documented for plot_ports=None.
A later update that must delete this binding fails on the stored pair. -/
theorem claim_C4_connmap_invariant_bug :
    ∃ info,
      (create_pipeline (fun a b => a == b) exCtrlC4 exRecipeC4 ⟨0, 0⟩
        none).result = Except.ok info ∧
      info.recipe.parameters = [("data", [RecipeParameterValue.var "A"])] ∧
      alookup info.conn_map "data" = some [PGroup.pair 301 "out"] ∧
      (∀ cids, PGroup.pair 301 "out" ≠ PGroup.ids cids) ∧
      deleteLeftoverGroup exPipe ⟨[], 0⟩ (PGroup.pair 301 "out") =
        Except.error Err.keyError := by
  refine ⟨_, rfl, by decide, by decide, ?_, by decide⟩
  intro cids h
  exact PGroup.noConfusion h

end DAT